import Mathlib

/-!
Verification of the coronamap data pipeline (src/make_map.py, src/map_basics.py).

The tabular data is embedded shallowly: a pandas frame is a `List` of row
structures, a `NaN` cell is `none` of an `Option` type, machine floats are
rationals, and calendar dates are nanosecond-since-epoch counts (the integer
value pandas exposes for a `datetime64[ns]` column).  The natural logarithm and
the branca color scale are abstract parameters `lg : ℚ → ℚ` and
`cm : ℚ → String`: no claim under study depends on any property of the
concrete functions beyond where they are applied.
-/

namespace Coronamap

/-- One row of the raw frame produced by `read_raw_data`: the key columns
`country` (already lowercased, underscores replaced) and `date`, the two count
columns, and `aux`, which stands for all remaining pass-through columns
(`day`, `month`, `year`, `geoid`, ...): `add_cumulative` treats every such
column identically, so one representative field suffices. -/
structure Row where
  country : String
  date : Nat
  new_cases : Int
  new_deaths : Int
  aux : String
deriving DecidableEq

instance : Inhabited Row := ⟨⟨"", 0, 0, 0, ""⟩⟩

/-- A row of the frame returned by `add_cumulative`: the raw columns plus the
two cumulative columns written by the per-country `cumsum` loop. -/
structure CumRow extends Row where
  sum_cases : Int
  sum_deaths : Int
deriving DecidableEq

instance : Inhabited CumRow := ⟨⟨default, 0, 0⟩⟩

/-- A row of the frame after `norm_population`: the four per-capita columns;
`none` models the `NaN` these columns are initialised with and keep whenever
the country has no unambiguous population match. -/
structure NormRow extends CumRow where
  sum_cases_per_capita : Option ℚ
  sum_deaths_per_capita : Option ℚ
  new_cases_per_capita : Option ℚ
  new_deaths_per_capita : Option ℚ
deriving DecidableEq

instance : Inhabited NormRow := ⟨⟨default, none, none, none, none⟩⟩

/-- One row of the population table read by `read_population`: the lowercased
`Region` name and the `Population_2020` figure (in thousands). -/
structure PopRow where
  Region : String
  Population_2020 : ℚ
deriving DecidableEq

instance : Inhabited PopRow := ⟨⟨"", 0⟩⟩

/-- The code point of a character, the key under which Python compares the
characters of two strings. -/
def charKey (c : Char) : Nat := c.val.toNat

/-- Lexicographic code-point comparison of two character lists: the strict
string order Python (and hence the pandas sorts of this program) uses. -/
def strLtB : List Char → List Char → Bool
  | [], [] => false
  | [], _ :: _ => true
  | _ :: _, [] => false
  | x :: xs, y :: ys =>
    if charKey x < charKey y then true
    else if charKey y < charKey x then false
    else strLtB xs ys

lemma strLtB_irrefl : ∀ xs : List Char, strLtB xs xs = false
  | [] => rfl
  | x :: xs => by simp [strLtB, strLtB_irrefl xs]

lemma strLtB_conn : ∀ xs ys : List Char,
    strLtB xs ys = false → strLtB ys xs = false → xs = ys
  | [], [], _, _ => rfl
  | [], _ :: _, h1, _ => by simp [strLtB] at h1
  | _ :: _, [], _, h2 => by simp [strLtB] at h2
  | x :: xs, y :: ys, h1, h2 => by
    rcases Nat.lt_trichotomy (charKey x) (charKey y) with h | h | h
    · rw [strLtB, if_pos h] at h1
      exact absurd h1 (by simp)
    · have hxy : x = y := Char.ext (UInt32.ext h)
      subst hxy
      rw [strLtB, if_neg (lt_irrefl _), if_neg (lt_irrefl _)] at h1
      rw [strLtB, if_neg (lt_irrefl _), if_neg (lt_irrefl _)] at h2
      rw [strLtB_conn xs ys h1 h2]
    · rw [strLtB, if_pos h] at h2
      exact absurd h2 (by simp)

lemma strLtB_trans : ∀ xs ys zs : List Char,
    strLtB xs ys = true → strLtB ys zs = true → strLtB xs zs = true
  | [], [], _, h1, _ => by simp [strLtB] at h1
  | _, _ :: _, [], _, h2 => by simp [strLtB] at h2
  | [], _ :: _, _ :: _, _, _ => rfl
  | _ :: _, [], _, h1, _ => by simp [strLtB] at h1
  | x :: xs, y :: ys, z :: zs, h1, h2 => by
    rcases Nat.lt_trichotomy (charKey x) (charKey y) with hxy | hxy | hxy
    · rcases Nat.lt_trichotomy (charKey y) (charKey z) with hyz | hyz | hyz
      · rw [strLtB, if_pos (hxy.trans hyz)]
      · have := Char.ext (UInt32.ext hyz)
        subst this
        rw [strLtB, if_pos hxy]
      · rw [strLtB, if_neg (Nat.lt_asymm hyz), if_pos hyz] at h2
        exact absurd h2 (by simp)
    · have := Char.ext (UInt32.ext hxy)
      subst this
      rw [strLtB, if_neg (lt_irrefl _), if_neg (lt_irrefl _)] at h1
      rcases Nat.lt_trichotomy (charKey x) (charKey z) with hyz | hyz | hyz
      · rw [strLtB, if_pos hyz]
      · have := Char.ext (UInt32.ext hyz)
        subst this
        rw [strLtB, if_neg (lt_irrefl _), if_neg (lt_irrefl _)] at h2
        rw [strLtB, if_neg (lt_irrefl _), if_neg (lt_irrefl _)]
        exact strLtB_trans xs ys zs h1 h2
      · rw [strLtB, if_neg (Nat.lt_asymm hyz), if_pos hyz] at h2
        exact absurd h2 (by simp)
    · rw [strLtB, if_neg (Nat.lt_asymm hxy), if_pos hxy] at h1
      exact absurd h1 (by simp)

/-- The strict Python string order, as a proposition. -/
def strLt (a b : String) : Prop := strLtB a.data b.data = true

instance : DecidableRel strLt := fun _ _ =>
  inferInstanceAs (Decidable (_ = _))

lemma string_ext {s t : String} (h : s.data = t.data) : s = t := by
  cases s
  cases t
  simp only at h
  rw [h]

lemma strLt_irrefl (a : String) : ¬ strLt a a := by
  simp [strLt, strLtB_irrefl]

lemma strLt_conn {a b : String} (h1 : ¬ strLt a b) (h2 : ¬ strLt b a) :
    a = b := by
  apply string_ext
  apply strLtB_conn
  · cases hx : strLtB a.data b.data
    · rfl
    · exact absurd hx h1
  · cases hx : strLtB b.data a.data
    · rfl
    · exact absurd hx h2

lemma strLt_trans {a b c : String} (h1 : strLt a b) (h2 : strLt b c) :
    strLt a c :=
  strLtB_trans _ _ _ h1 h2

/-- The non-strict Python string order, driving `sorted(...)` on country
names. -/
def strLe (a b : String) : Prop := strLt a b ∨ a = b

instance : DecidableRel strLe := fun _ _ =>
  inferInstanceAs (Decidable (_ ∨ _))

/-- The ordering used by `data.sort_values(by=["country", "date"])`:
lexicographic on the country string (Python string order) and then the
date. -/
def rowRel (a b : Row) : Prop :=
  strLt a.country b.country ∨ (a.country = b.country ∧ a.date ≤ b.date)

instance : DecidableRel rowRel := fun _ _ =>
  inferInstanceAs (Decidable (_ ∨ _))

instance : IsTotal Row rowRel :=
  ⟨fun a b => by
    by_cases h1 : strLt a.country b.country
    · exact Or.inl (Or.inl h1)
    · by_cases h2 : strLt b.country a.country
      · exact Or.inr (Or.inl h2)
      · have heq := strLt_conn h1 h2
        rcases Nat.le_total a.date b.date with h3 | h3
        · exact Or.inl (Or.inr ⟨heq, h3⟩)
        · exact Or.inr (Or.inr ⟨heq.symm, h3⟩)⟩

instance : IsTrans Row rowRel :=
  ⟨fun a b c hab hbc => by
    rcases hab with h1 | ⟨h1, h1d⟩ <;> rcases hbc with h2 | ⟨h2, h2d⟩
    · exact Or.inl (strLt_trans h1 h2)
    · exact Or.inl (h2 ▸ h1)
    · exact Or.inl (h1 ▸ h2)
    · exact Or.inr ⟨h1.trans h2, h1d.trans h2d⟩⟩

/-- The value of `list(sorted(frame[col].unique()))`: the distinct values of a
column, in ascending order. -/
def uniqueSorted (l : List String) : List String :=
  List.insertionSort strLe l.dedup

/-- The rows the missing-date loop of `add_cumulative` synthesizes for one
country (src/make_map.py lines 100-112): every global date the country has no
row for yields a row with zero counts whose remaining columns are copied from
`datai[key].values[-1]`, the positionally last raw row of that country in
input order.  The country always comes from the raw frame itself, so the
filtered sub-frame is never empty and the `getLastD` default is never
consulted. -/
def missingBlock (raw_data : List Row) (dates : List Nat) (country : String) :
    List Row :=
  let datai := raw_data.filter (fun r => r.country == country)
  let datesi := datai.map (·.date)
  (dates.filter (fun d => !(datesi.contains d))).map (fun d =>
    { country := country
      date := d
      new_cases := 0
      new_deaths := 0
      aux := (datai.getLastD default).aux })

/-- All rows synthesized by the missing-date loop of `add_cumulative`
(src/make_map.py lines 99-114), one block per country of the raw frame. -/
def missingRows (raw_data : List Row) (dates : List Nat) : List Row :=
  (uniqueSorted (raw_data.map (·.country))).flatMap (missingBlock raw_data dates)

/-- The per-country cumulative-sum pass of `add_cumulative`
(src/make_map.py lines 120-127): pandas computes, for each country, the
`cumsum` of the count columns over the sub-frame of that country and writes it
back aligned by row, so each row receives the totals of the counts of its own
country
over all rows up to and including itself.  `seen` is the already processed
prefix of the frame. -/
def addSumsGo (seen : List Row) : List Row → List CumRow
  | [] => []
  | r :: rest =>
    let prev := (seen ++ [r]).filter (fun x => x.country == r.country)
    { toRow := r
      sum_cases := (prev.map (·.new_cases)).sum
      sum_deaths := (prev.map (·.new_deaths)).sum } :: addSumsGo (seen ++ [r]) rest

/-- The cumulative columns of a whole frame, starting from an empty prefix. -/
def addSums (data : List Row) : List CumRow := addSumsGo [] data

/-- Model of `add_cumulative(raw_data, dates)` (src/make_map.py lines 93-128):
append the synthesized missing rows to the raw rows, sort by
`(country, date)`, and add the per-country cumulative columns.  The pandas
sort is modelled by `insertionSort`; under the no-duplicate-keys hypotheses of
the claims the sort key is injective on the rows, so every correct sort
produces the same list. -/
def add_cumulative (raw_data : List Row) (dates : List Nat) : List CumRow :=
  addSums (List.insertionSort rowRel (raw_data ++ missingRows raw_data dates))

/-- Position `k` of `prefixSums l` is the sum of the first `k + 1` entries of
`l`: the value a `cumsum` column holds at row `k`. -/
def prefixSums (l : List Int) : List Int :=
  (List.range l.length).map (fun k => (l.take (k + 1)).sum)

/-- The per-capita row written by `norm_population` for a country whose
population lookup returned exactly one row: each of the four source columns
divided by `capita = Population_2020 / 100`. -/
def normRowOf (capita : ℚ) (r : CumRow) : NormRow :=
  { toCumRow := r
    sum_cases_per_capita := some ((r.sum_cases : ℚ) / capita)
    sum_deaths_per_capita := some ((r.sum_deaths : ℚ) / capita)
    new_cases_per_capita := some ((r.new_cases : ℚ) / capita)
    new_deaths_per_capita := some ((r.new_deaths : ℚ) / capita) }

/-- A row whose four per-capita columns still hold the `NaN` they were
initialised with. -/
def blankNormRow (r : CumRow) : NormRow :=
  { toCumRow := r
    sum_cases_per_capita := none
    sum_deaths_per_capita := none
    new_cases_per_capita := none
    new_deaths_per_capita := none }

/-- One iteration of the country loop of `norm_population`
(src/make_map.py lines 138-160): skip the country unless its `Region` lookup
in the population table has exactly one row, otherwise divide the four source
columns of the rows of that country by `Population_2020 / 100`. -/
def normStep (population : List PopRow) (d : List NormRow) (country : String) :
    List NormRow :=
  let pop := population.filter (fun p => p.Region == country)
  if pop.length ≠ 1 then d
  else
    let capita := (pop.headD default).Population_2020 / 100
    d.map (fun o => if o.country == country then normRowOf capita o.toCumRow else o)

/-- Model of `norm_population(data, population)` (src/make_map.py lines
131-160).  The Python function mutates `data` in place and returns `None`; the
model returns the final state of the frame: the four per-capita columns are
initialised to `NaN` and the sorted distinct countries are processed by
`normStep`. -/
def norm_population (data : List CumRow) (population : List PopRow) :
    List NormRow :=
  (uniqueSorted (data.map (·.country))).foldl (normStep population)
    (data.map blankNormRow)

/-- A row of the frame as seen by the map_basics functions, restricted to the
single column those functions select: the `country` and `date` key columns
plus `value`, the cell of the chosen column (`none` models a `NaN` cell, such
as an unmatched per-capita value). -/
structure MRow where
  country : String
  date : Nat
  value : Option ℚ
deriving DecidableEq

instance : Inhabited MRow := ⟨⟨"", 0, none⟩⟩

/-- One geo json feature: its `id` and its `properties.name`. -/
structure Feature where
  id : String
  name : String
deriving DecidableEq

/-- A style record emitted by `create_style`: a fill color and an opacity. -/
structure Style where
  color : String
  opacity : ℚ
deriving DecidableEq

instance : Inhabited Style := ⟨⟨"", 0⟩⟩

/-- The module constant `OPACITY = 0.7` of src/map_basics.py, given as the
already reduced rational 7/10 so that it evaluates inside the kernel;
`OPACITY_eq` states the usual form. -/
def OPACITY : ℚ := ⟨7, 10, by decide, by decide⟩

lemma OPACITY_eq : OPACITY = 7 / 10 := by
  rw [OPACITY, Rat.mk'_eq_divInt, Rat.divInt_eq_div]
  norm_num

/-- ASCII lowercasing, the effect of the Python `str.lower()` calls on the
country and feature names of this data set. -/
def lowerStr (s : String) : String := ⟨s.data.map Char.toLower⟩

/-- One step of `do_log` (src/map_basics.py lines 367-375) on a single cell:
a value `i <= 0` becomes `NaN`, a positive value becomes `log(i)`.  A `NaN`
cell fails the `i <= 0` test in Python and `log(NaN)` is again `NaN`, so
`none` maps to `none`.  The natural logarithm is the abstract parameter
`lg`. -/
def doLogCell (lg : ℚ → ℚ) : Option ℚ → Option ℚ
  | none => none
  | some v => if v ≤ 0 then none else some (lg v)

/-- Model of `do_log(values)` (src/map_basics.py lines 367-375): the
element-wise map of `doLogCell` over the value list. -/
def do_log (lg : ℚ → ℚ) (values : List (Option ℚ)) : List (Option ℚ) :=
  values.map (doLogCell lg)

/-- The `if log: values = do_log(values)` step shared by `get_min_max` and
`create_style`: with the flag set the values are log-transformed, otherwise
they pass through unchanged. -/
def transformValues (log : Bool) (lg : ℚ → ℚ) (values : List (Option ℚ)) :
    List (Option ℚ) :=
  if log then do_log lg values else values

/-- The transform of a single cell, used to state per-cell properties. -/
def transformCell (log : Bool) (lg : ℚ → ℚ) (v : Option ℚ) : Option ℚ :=
  if log then doLogCell lg v else v

/-- The Python `<` on floats where `NaN` compares false against everything:
the comparison driving the built-in `min`. -/
def pyLt : Option ℚ → Option ℚ → Bool
  | some a, some b => a < b
  | _, _ => false

/-- The Python `>` on floats where `NaN` compares false against everything:
the comparison driving the built-in `max`. -/
def pyGt : Option ℚ → Option ℚ → Bool
  | some a, some b => b < a
  | _, _ => false

/-- The Python built-in `min(a, b)`: `b` if `b < a`, else `a`. -/
def pyMin2 (a b : Option ℚ) : Option ℚ := if pyLt b a then b else a

/-- The Python built-in `max(a, b)`: `b` if `b > a`, else `a`. -/
def pyMax2 (a b : Option ℚ) : Option ℚ := if pyGt b a then b else a

/-- The Python built-in `min(values)` over a non-empty list: fold the pairwise
rule from the first element.  `get_min_max` only calls it on non-empty value
lists (empty sub-frames are skipped), so the `[]` case is never consulted. -/
def pyMinL : List (Option ℚ) → Option ℚ
  | [] => none
  | x :: rest => rest.foldl (fun acc y => if pyLt y acc then y else acc) x

/-- The Python built-in `max(values)` over a non-empty list. -/
def pyMaxL : List (Option ℚ) → Option ℚ
  | [] => none
  | x :: rest => rest.foldl (fun acc y => if pyGt y acc then y else acc) x

/-- Model of `get_min_max(data, countries, column, log)` (src/map_basics.py
lines 112-145): both bounds start at `0.0`; every listed country with at least
one row contributes `min(values)` and `max(values)` of its (optionally
log-transformed) column values through the Python built-ins. -/
def get_min_max (data : List MRow) (countries : List String) (lg : ℚ → ℚ)
    (log : Bool) : Option ℚ × Option ℚ :=
  countries.foldl
    (fun mv country =>
      let datai := data.filter (fun r => r.country == country)
      if datai.isEmpty then mv
      else
        let values := transformValues log lg (datai.map (·.value))
        (pyMin2 mv.1 (pyMinL values), pyMax2 mv.2 (pyMaxL values)))
    (some 0, some 0)

/-- Model of `get_country_id(country, geojson)` (src/map_basics.py lines
148-155): the `id` of the first feature whose lowercased name equals the
lowercased country, `None` if there is none. -/
def get_country_id (country : String) (geojson : List Feature) : Option String :=
  (geojson.find? (fun f => lowerStr f.name == lowerStr country)).map (·.id)

/-- The per-value branch of `create_style` (src/map_basics.py lines 208-224):
a `NaN` value gives the blank sentinel style, a defined value below a
configured threshold gives the same sentinel, and any other defined value is
shown with `OPACITY` and the color the color map assigns to it. -/
def styleOf (cm : ℚ → String) (threshold : Option ℚ) : Option ℚ → Style
  | none => { color := "#ffffff", opacity := 0 }
  | some val =>
    match threshold with
    | some t =>
      if val < t then { color := "#ffffff", opacity := 0 }
      else { color := cm val, opacity := OPACITY }
    | none => { color := cm val, opacity := OPACITY }

/-- Python dict assignment `d[k] = v` on an association list: replace the
value in place if the key is present, append otherwise. -/
def dinsert {α : Type} : List (String × α) → String → α → List (String × α)
  | [], k, v => [(k, v)]
  | (k0, v0) :: rest, k, v =>
    if k0 = k then (k0, v) :: rest else (k0, v0) :: dinsert rest k v

/-- Model of `create_style(data, geojson, column, countries, color_map, log,
threshold)` (src/map_basics.py lines 169-226): for each listed country with at
least one data row and a matching geo json feature, store under the feature
id the list of styles of the (optionally log-transformed) column values of
that country, in row order. -/
def create_style (data : List MRow) (geojson : List Feature)
    (countries : List String) (cm : ℚ → String) (lg : ℚ → ℚ) (log : Bool)
    (threshold : Option ℚ) : List (String × List Style) :=
  countries.foldl
    (fun style_dict country =>
      let datai := data.filter (fun r => r.country == country)
      if datai.isEmpty then style_dict
      else
        let values := transformValues log lg (datai.map (·.value))
        match get_country_id country geojson with
        | none => style_dict
        | some country_idx =>
          dinsert style_dict country_idx (values.map (styleOf cm threshold)))
    []

/-- Helper for `uniqueKeepFirst`: drop every value already in `seen`, record
each kept value. -/
def uniqueKeepFirstGo (seen : List Nat) : List Nat → List Nat
  | [] => []
  | a :: l =>
    if a ∈ seen then uniqueKeepFirstGo seen l
    else a :: uniqueKeepFirstGo (seen ++ [a]) l

/-- The distinct values of a column in first-occurrence order: the value of
`frame[col].unique()`. -/
def uniqueKeepFirst (l : List Nat) : List Nat := uniqueKeepFirstGo [] l

/-- The date keys of `create_folium_choropleth` (src/map_basics.py line 436):
`(data["date"].unique().astype(int) // 10**9).astype("U10")` turns each
distinct nanosecond timestamp into its epoch-second count printed as a string
of at most ten characters. -/
def timeKey (d : Nat) : String := (toString (d / 1000000000)).take 10

/-- Model of the style-dictionary restructuring of `create_folium_choropleth`
(src/map_basics.py lines 404-442): the `create_style` output for the sorted
distinct countries of the frame, re-keyed so that each feature id maps to an
inner dict from the date keys to the styles, pairing the distinct dates of the
whole frame with the style list of the feature by position (`zip` truncates at
the shorter list). -/
def create_folium_choropleth_styledict (data : List MRow)
    (geojson : List Feature) (cm : ℚ → String) (lg : ℚ → ℚ) (log : Bool)
    (threshold : Option ℚ) : List (String × List (String × Style)) :=
  let countries := uniqueSorted (data.map (·.country))
  let styles := create_style data geojson countries cm lg log threshold
  let dates := (uniqueKeepFirst (data.map (·.date))).map timeKey
  styles.foldl
    (fun style_dict kv =>
      dinsert style_dict kv.1
        ((dates.zip kv.2).foldl (fun inner dv => dinsert inner dv.1 dv.2) []))
    []

/-- Model of the static style dictionary of `create_folium_map`
(src/map_basics.py lines 331-334): only the first style of each feature is
retained (`style_dict[key] = val[0]`; the lists `create_style` emits are never
empty, so the `headD` default is never consulted). -/
def create_folium_map_styledict (data : List MRow) (geojson : List Feature)
    (cm : ℚ → String) (lg : ℚ → ℚ) (log : Bool) (threshold : Option ℚ) :
    List (String × Style) :=
  let countries := uniqueSorted (data.map (·.country))
  let styles := create_style data geojson countries cm lg log threshold
  styles.foldl (fun style_dict kv => dinsert style_dict kv.1 (kv.2.headD default))
    []

/-- Python dict access `d[k]` on an association list maintained by `dinsert`:
the value stored at the first (and, after `dinsert`, only) occurrence of the
key. -/
def dlookup {α : Type} (k : String) : List (String × α) → Option α
  | [] => none
  | (k0, v0) :: rest => if k0 = k then some v0 else dlookup k rest

/-! Utility lemmas. -/

lemma contains_iff_mem (l : List Nat) (a : Nat) : l.contains a = true ↔ a ∈ l :=
  List.elem_iff

lemma mem_uniqueSorted {l : List String} {c : String} :
    c ∈ uniqueSorted l ↔ c ∈ l := by
  unfold uniqueSorted
  rw [(List.perm_insertionSort strLe l.dedup).mem_iff, List.mem_dedup]

lemma nodup_uniqueSorted (l : List String) : (uniqueSorted l).Nodup :=
  (List.perm_insertionSort strLe l.dedup).nodup_iff.mpr (List.nodup_dedup l)

lemma mem_uniqueKeepFirstGo {seen l : List Nat} {a : Nat} :
    a ∈ uniqueKeepFirstGo seen l ↔ a ∈ l ∧ a ∉ seen := by
  induction l generalizing seen with
  | nil => simp [uniqueKeepFirstGo]
  | cons b l ih =>
    by_cases hb : b ∈ seen
    · simp only [uniqueKeepFirstGo, if_pos hb, ih, List.mem_cons]
      constructor
      · rintro ⟨h1, h2⟩; exact ⟨Or.inr h1, h2⟩
      · rintro ⟨h1 | h1, h2⟩
        · exact absurd (h1 ▸ hb) h2
        · exact ⟨h1, h2⟩
    · simp only [uniqueKeepFirstGo, if_neg hb, List.mem_cons, ih,
        List.mem_append, List.mem_singleton]
      constructor
      · rintro (rfl | ⟨h1, h2⟩)
        · exact ⟨Or.inl rfl, hb⟩
        · exact ⟨Or.inr h1, fun hs => h2 (Or.inl hs)⟩
      · rintro ⟨rfl | h1, h2⟩
        · exact Or.inl rfl
        · by_cases hab : a = b
          · exact Or.inl hab
          · refine Or.inr ⟨h1, fun hs => ?_⟩
            rcases hs with hs | hs
            · exact h2 hs
            · exact hab (by simpa using hs)

lemma nodup_uniqueKeepFirstGo (seen l : List Nat) :
    (uniqueKeepFirstGo seen l).Nodup := by
  induction l generalizing seen with
  | nil => simp [uniqueKeepFirstGo]
  | cons b l ih =>
    by_cases hb : b ∈ seen
    · simpa [uniqueKeepFirstGo, if_pos hb] using ih seen
    · simp only [uniqueKeepFirstGo, if_neg hb, List.nodup_cons]
      refine ⟨fun hmem => ?_, ih (seen ++ [b])⟩
      rcases mem_uniqueKeepFirstGo.mp hmem with ⟨_, h2⟩
      exact h2 (by simp)

lemma nodup_uniqueKeepFirst (l : List Nat) : (uniqueKeepFirst l).Nodup :=
  nodup_uniqueKeepFirstGo [] l

lemma dlookup_dinsert_self {α : Type} (d : List (String × α)) (k : String)
    (v : α) : dlookup k (dinsert d k v) = some v := by
  induction d with
  | nil => simp [dinsert, dlookup]
  | cons kv rest ih =>
    obtain ⟨k0, v0⟩ := kv
    by_cases h : k0 = k
    · subst h; simp [dinsert, dlookup]
    · simp only [dinsert, if_neg h, dlookup]
      exact ih

lemma dlookup_dinsert_ne {α : Type} (d : List (String × α)) {k k' : String}
    (v : α) (h : k ≠ k') :
    dlookup k' (dinsert d k v) = dlookup k' d := by
  induction d with
  | nil => simp [dinsert, dlookup, h]
  | cons kv rest ih =>
    obtain ⟨k0, v0⟩ := kv
    by_cases h0 : k0 = k
    · subst h0
      simp only [dinsert, if_pos rfl, dlookup]
      rw [if_neg h, if_neg h]
    · simp only [dinsert, if_neg h0, dlookup]
      by_cases h1 : k0 = k'
      · rw [if_pos h1, if_pos h1]
      · rw [if_neg h1, if_neg h1]
        exact ih

lemma mem_dinsert {α : Type} {d : List (String × α)} {k : String} {v : α}
    {kv : String × α} (h : kv ∈ dinsert d k v) : kv ∈ d ∨ kv = (k, v) := by
  induction d with
  | nil => simpa [dinsert] using h
  | cons kv0 rest ih =>
    obtain ⟨k0, v0⟩ := kv0
    by_cases h0 : k0 = k
    · subst h0
      rcases (by simpa [dinsert] using h : kv = (k0, v) ∨ kv ∈ rest) with h1 | h1
      · exact Or.inr h1
      · exact Or.inl (List.mem_cons_of_mem _ h1)
    · rcases (by simpa [dinsert, h0] using h :
          kv = (k0, v0) ∨ kv ∈ dinsert rest k v) with h1 | h1
      · exact Or.inl (h1 ▸ List.mem_cons_self _ _)
      · rcases ih h1 with h2 | h2
        · exact Or.inl (List.mem_cons_of_mem _ h2)
        · exact Or.inr h2

lemma dlookup_mem {α : Type} {d : List (String × α)} {k : String} {v : α}
    (h : dlookup k d = some v) : (k, v) ∈ d := by
  induction d with
  | nil => simp [dlookup] at h
  | cons kv rest ih =>
    obtain ⟨k0, v0⟩ := kv
    by_cases h0 : k0 = k
    · subst h0
      simp only [dlookup, if_pos rfl, if_true, Option.some_inj] at h
      subst h
      exact List.mem_cons_self _ _
    · rw [dlookup, if_neg h0] at h
      exact List.mem_cons_of_mem _ (ih h)

/-! Lemmas about the cumulative-sum pass. -/

/-- Running totals of a list of counts starting from `base`: the shape the
cumulative column takes on one country, offset by the counts already seen. -/
def withRun (base : Int) : List Int → List Int
  | [] => []
  | a :: l => (base + a) :: withRun (base + a) l

lemma addSumsGo_map_toRow (L : List Row) :
    ∀ seen : List Row, (addSumsGo seen L).map (·.toRow) = L := by
  induction L with
  | nil => intro seen; simp [addSumsGo]
  | cons r rest ih => intro seen; simp [addSumsGo, ih]

lemma mem_addSumsGo_toRow {L seen : List Row} {r : CumRow}
    (h : r ∈ addSumsGo seen L) : r.toRow ∈ L := by
  have := List.mem_map_of_mem (fun x : CumRow => x.toRow) h
  rwa [addSumsGo_map_toRow] at this

lemma addSumsGo_filter_map_sum_cases (L : List Row) :
    ∀ seen : List Row, ∀ c : String,
    ((addSumsGo seen L).filter (fun r => r.toRow.country == c)).map (·.sum_cases)
      = withRun (((seen.filter (fun x => x.country == c)).map (·.new_cases)).sum)
          ((L.filter (fun x => x.country == c)).map (·.new_cases)) := by
  induction L with
  | nil => intro seen c; simp [addSumsGo, withRun]
  | cons r rest ih =>
    intro seen c
    by_cases hc : r.country = c
    · subst hc
      have hfil : ∀ s : List Row,
          List.filter (fun x => x.country == r.country) (s ++ [r])
            = List.filter (fun x => x.country == r.country) s ++ [r] := by
        intro s
        rw [List.filter_append]
        simp [List.filter_cons]
      have htail := ih (seen ++ [r]) r.country
      rw [hfil] at htail
      simp only [List.map_append, List.sum_append, List.map_cons, List.map_nil,
        List.sum_cons, List.sum_nil, add_zero] at htail
      simp only [addSumsGo, List.filter_cons, beq_self_eq_true, if_true,
        List.map_cons, withRun, hfil, List.map_append, List.sum_append,
        List.map_nil, List.sum_cons, List.sum_nil, add_zero, htail]
    · have hb : (r.country == c) = false := by simpa using hc
      simp only [addSumsGo, List.filter_cons, hb, Bool.false_eq_true, if_false]
      have htail := ih (seen ++ [r]) c
      rw [List.filter_append,
        show (List.filter (fun x => x.country == c) [r]) = [] by
          simp [List.filter_cons, hb]] at htail
      simpa using htail

lemma addSumsGo_filter_map_sum_deaths (L : List Row) :
    ∀ seen : List Row, ∀ c : String,
    ((addSumsGo seen L).filter (fun r => r.toRow.country == c)).map (·.sum_deaths)
      = withRun (((seen.filter (fun x => x.country == c)).map (·.new_deaths)).sum)
          ((L.filter (fun x => x.country == c)).map (·.new_deaths)) := by
  induction L with
  | nil => intro seen c; simp [addSumsGo, withRun]
  | cons r rest ih =>
    intro seen c
    by_cases hc : r.country = c
    · subst hc
      have hfil : ∀ s : List Row,
          List.filter (fun x => x.country == r.country) (s ++ [r])
            = List.filter (fun x => x.country == r.country) s ++ [r] := by
        intro s
        rw [List.filter_append]
        simp [List.filter_cons]
      have htail := ih (seen ++ [r]) r.country
      rw [hfil] at htail
      simp only [List.map_append, List.sum_append, List.map_cons, List.map_nil,
        List.sum_cons, List.sum_nil, add_zero] at htail
      simp only [addSumsGo, List.filter_cons, beq_self_eq_true, if_true,
        List.map_cons, withRun, hfil, List.map_append, List.sum_append,
        List.map_nil, List.sum_cons, List.sum_nil, add_zero, htail]
    · have hb : (r.country == c) = false := by simpa using hc
      simp only [addSumsGo, List.filter_cons, hb, Bool.false_eq_true, if_false]
      have htail := ih (seen ++ [r]) c
      rw [List.filter_append,
        show (List.filter (fun x => x.country == c) [r]) = [] by
          simp [List.filter_cons, hb]] at htail
      simpa using htail

lemma prefixSums_nil : prefixSums [] = [] := rfl

lemma prefixSums_cons (a : Int) (l : List Int) :
    prefixSums (a :: l) = a :: (prefixSums l).map (a + ·) := by
  unfold prefixSums
  rw [List.length_cons, List.range_succ_eq_map, List.map_cons, List.map_map,
    List.map_map]
  refine List.cons_eq_cons.mpr ⟨by simp, ?_⟩
  apply List.map_congr_left
  intro k _
  simp only [Function.comp_apply, List.take_succ_cons, List.sum_cons]

lemma withRun_eq_prefixSums (l : List Int) :
    ∀ base : Int, withRun base l = (prefixSums l).map (base + ·) := by
  induction l with
  | nil => intro base; simp [withRun, prefixSums_nil]
  | cons a l ih =>
    intro base
    rw [withRun, ih (base + a), prefixSums_cons, List.map_cons, List.map_map]
    congr 1
    apply List.map_congr_left
    intro x _
    simp only [Function.comp_apply]
    ring

lemma withRun_zero (l : List Int) : withRun 0 l = prefixSums l := by
  rw [withRun_eq_prefixSums]
  exact (List.map_congr_left fun x _ => zero_add x).trans (List.map_id _)

/-! Lemmas about the missing-date completion. -/

lemma mem_missingBlock {raw : List Row} {dates : List Nat} {c : String}
    {r : Row} (h : r ∈ missingBlock raw dates c) :
    r.country = c ∧ r.new_cases = 0 ∧ r.new_deaths = 0 ∧ r.date ∈ dates ∧
      r.aux = ((raw.filter (fun x => x.country == c)).getLastD default).aux ∧
      r.date ∉ (raw.filter (fun x => x.country == c)).map (·.date) := by
  unfold missingBlock at h
  rcases List.mem_map.mp h with ⟨d, hd, rfl⟩
  rcases List.mem_filter.mp hd with ⟨hd1, hd2⟩
  refine ⟨rfl, rfl, rfl, hd1, rfl, fun hmem => ?_⟩
  rw [Bool.not_eq_eq_eq_not, Bool.not_true, ← Bool.not_eq_true,
    contains_iff_mem] at hd2
  exact hd2 hmem

lemma missingBlock_map_date (raw : List Row) (dates : List Nat) (c : String) :
    (missingBlock raw dates c).map (·.date)
      = dates.filter
          (fun d => !(((raw.filter (fun x => x.country == c)).map (·.date)).contains d)) := by
  unfold missingBlock
  rw [List.map_map]
  exact (List.map_congr_left fun d _ => rfl).trans (List.map_id _)

lemma filter_missingBlock_self (raw : List Row) (dates : List Nat)
    (c : String) :
    (missingBlock raw dates c).filter (fun r => r.country == c)
      = missingBlock raw dates c := by
  apply List.filter_eq_self.mpr
  intro r hr
  simpa using (mem_missingBlock hr).1

lemma filter_missingBlock_other (raw : List Row) (dates : List Nat)
    {c' c : String} (h : c' ≠ c) :
    (missingBlock raw dates c').filter (fun r => r.country == c) = [] := by
  apply List.filter_eq_nil_iff.mpr
  intro r hr
  simpa using (mem_missingBlock hr).1.symm ▸ h

lemma filter_missingRows (raw : List Row) (dates : List Nat) {c : String}
    (hmem : c ∈ uniqueSorted (raw.map (·.country))) :
    (missingRows raw dates).filter (fun r => r.country == c)
      = missingBlock raw dates c := by
  unfold missingRows
  have key : ∀ cs : List String, cs.Nodup → c ∈ cs →
      (cs.flatMap (missingBlock raw dates)).filter (fun r => r.country == c)
        = missingBlock raw dates c := by
    intro cs
    induction cs with
    | nil => intro _ hmem2; cases hmem2
    | cons c' cs ih =>
      intro hnd hmem2
      rw [List.flatMap_cons, List.filter_append]
      rcases List.mem_cons.mp hmem2 with rfl | hmem3
      · rw [filter_missingBlock_self]
        have hnotin : c ∉ cs := (List.nodup_cons.mp hnd).1
        have hnil : (cs.flatMap (missingBlock raw dates)).filter
            (fun r => r.country == c) = [] := by
          apply List.filter_eq_nil_iff.mpr
          intro r hr
          rcases List.mem_flatMap.mp hr with ⟨c2, hc2, hrc2⟩
          have := (mem_missingBlock hrc2).1
          simp only [this, beq_iff_eq]
          intro he
          exact hnotin (he ▸ hc2)
        rw [hnil, List.append_nil]
      · have hne : c' ≠ c := by
          rintro rfl
          exact (List.nodup_cons.mp hnd).1 hmem3
        rw [filter_missingBlock_other raw dates hne, List.nil_append]
        exact ih (List.nodup_cons.mp hnd).2 hmem3
  exact key _ (nodup_uniqueSorted _) hmem

lemma mem_missingRows {raw : List Row} {dates : List Nat} {r : Row}
    (h : r ∈ missingRows raw dates) :
    r.country ∈ uniqueSorted (raw.map (·.country)) ∧ r.new_cases = 0 ∧
      r.new_deaths = 0 ∧ r.date ∈ dates ∧
      r.aux = ((raw.filter (fun x => x.country == r.country)).getLastD default).aux := by
  unfold missingRows at h
  rcases List.mem_flatMap.mp h with ⟨c, hc, hrc⟩
  obtain ⟨h1, h2, h3, h4, h5, _⟩ := mem_missingBlock hrc
  subst h1
  exact ⟨hc, h2, h3, h4, h5⟩

lemma nodup_filtered_dates {raw : List Row}
    (hnd : (raw.map (fun r => (r.country, r.date))).Nodup) (c : String) :
    ((raw.filter (fun x => x.country == c)).map (·.date)).Nodup := by
  have hsub : ((raw.filter (fun x => x.country == c)).map
        (fun r => (r.country, r.date))).Sublist
      (raw.map (fun r => (r.country, r.date))) :=
    (List.filter_sublist raw).map _
  have h1 := hnd.sublist hsub
  have h2 : (raw.filter (fun x => x.country == c)).map (·.date)
      = ((raw.filter (fun x => x.country == c)).map
          (fun r => (r.country, r.date))).map Prod.snd := by
    rw [List.map_map]
    exact List.map_congr_left fun r _ => rfl
  rw [h2]
  apply h1.map_on
  intro x hx y hy hxy
  rcases List.mem_map.mp hx with ⟨rx, hrx, rfl⟩
  rcases List.mem_map.mp hy with ⟨ry, hry, rfl⟩
  have hcx : rx.country = c := by simpa using (List.mem_filter.mp hrx).2
  have hcy : ry.country = c := by simpa using (List.mem_filter.mp hry).2
  simp only [Prod.mk.injEq]
  exact ⟨hcx.trans hcy.symm, hxy⟩

lemma union_perm_dates {datesi dates : List Nat} (h1 : datesi.Nodup)
    (h2 : dates.Nodup) (hsub : ∀ d ∈ datesi, d ∈ dates) :
    (datesi ++ dates.filter (fun d => !(datesi.contains d))).Perm dates := by
  have hp : datesi.Perm (dates.filter (fun d => datesi.contains d)) := by
    apply List.perm_of_nodup_nodup_toFinset_eq h1 (h2.filter _)
    ext d
    simp only [List.mem_toFinset, List.mem_filter, contains_iff_mem]
    exact ⟨fun h => ⟨hsub d h, h⟩, fun h => h.2⟩
  exact (hp.append_right _).trans (List.filter_append_perm _ dates)

/-! Lemmas about the assembled `add_cumulative`. -/

lemma add_cumulative_map_toRow (raw_data : List Row) (dates : List Nat) :
    (add_cumulative raw_data dates).map (·.toRow)
      = List.insertionSort rowRel (raw_data ++ missingRows raw_data dates) :=
  addSumsGo_map_toRow _ []

lemma add_cumulative_pairwise (raw_data : List Row) (dates : List Nat) :
    (add_cumulative raw_data dates).Pairwise
      (fun a b => rowRel a.toRow b.toRow) := by
  have hs := List.sorted_insertionSort rowRel (raw_data ++ missingRows raw_data dates)
  rw [← add_cumulative_map_toRow raw_data dates] at hs
  exact List.pairwise_map.mp hs

lemma add_cumulative_toRow_mem {raw_data : List Row} {dates : List Nat}
    {r : CumRow} (h : r ∈ add_cumulative raw_data dates) :
    r.toRow ∈ raw_data ∨ r.toRow ∈ missingRows raw_data dates := by
  have h1 : r.toRow ∈ List.insertionSort rowRel (raw_data ++ missingRows raw_data dates) :=
    mem_addSumsGo_toRow h
  have h2 := (List.perm_insertionSort rowRel
    (raw_data ++ missingRows raw_data dates)).mem_iff.mp h1
  exact List.mem_append.mp h2

lemma filter_country_map_date (out : List CumRow) (c : String) :
    ((out.filter (fun r => r.toRow.country == c)).map (·.toRow.date))
      = ((out.map (·.toRow)).filter (fun x => x.country == c)).map (·.date) := by
  rw [List.filter_map, List.map_map]
  exact List.map_congr_left fun r _ => rfl

lemma filter_country_map_new_cases (out : List CumRow) (c : String) :
    ((out.filter (fun r => r.toRow.country == c)).map (·.toRow.new_cases))
      = ((out.map (·.toRow)).filter (fun x => x.country == c)).map (·.new_cases) := by
  rw [List.filter_map, List.map_map]
  exact List.map_congr_left fun r _ => rfl

lemma filter_country_map_new_deaths (out : List CumRow) (c : String) :
    ((out.filter (fun r => r.toRow.country == c)).map (·.toRow.new_deaths))
      = ((out.map (·.toRow)).filter (fun x => x.country == c)).map (·.new_deaths) := by
  rw [List.filter_map, List.map_map]
  exact List.map_congr_left fun r _ => rfl

lemma add_cumulative_filter_pairwise_date (raw_data : List Row)
    (dates : List Nat) (c : String) :
    (((add_cumulative raw_data dates).filter
        (fun r => r.toRow.country == c)).map (·.toRow.date)).Pairwise (· ≤ ·) := by
  apply List.pairwise_map.mpr
  have h1 := (add_cumulative_pairwise raw_data dates).filter
    (fun r => r.toRow.country == c)
  apply h1.imp_of_mem
  intro a b ha hb hab
  have hca : a.toRow.country = c := by
    simpa using (List.mem_filter.mp ha).2
  have hcb : b.toRow.country = c := by
    simpa using (List.mem_filter.mp hb).2
  rcases hab with h | h
  · rw [hca, hcb] at h
    exact absurd h (strLt_irrefl c)
  · exact h.2

/-- C1: for a raw dataset in which every country has at least one row (true by
construction: the completed countries are exactly the countries of the raw
rows), no (country, date) pair repeats, and the global date list is the
sorted duplicate-free list covering every raw date, the frame returned by
`add_cumulative` is sorted by (country, date) ascending, mentions only
countries of the raw data, gives every such country exactly the global date
list (hence no gaps and no duplicate pairs), and every synthesized row (one
whose (country, date) pair is absent from the raw data) has zero new_cases
and new_deaths. -/
theorem C1_add_cumulative_completes (raw_data : List Row) (dates : List Nat)
    (hnd : (raw_data.map (fun r => (r.country, r.date))).Nodup)
    (hdnd : dates.Nodup)
    (hdsorted : dates.Pairwise (· ≤ ·))
    (hdsub : ∀ r ∈ raw_data, r.date ∈ dates) :
    ((add_cumulative raw_data dates).Pairwise
        (fun a b => rowRel a.toRow b.toRow))
    ∧ (∀ r ∈ add_cumulative raw_data dates,
        r.toRow.country ∈ uniqueSorted (raw_data.map (·.country)))
    ∧ (∀ c ∈ uniqueSorted (raw_data.map (·.country)),
        ((add_cumulative raw_data dates).filter
            (fun r => r.toRow.country == c)).map (·.toRow.date) = dates)
    ∧ (∀ r ∈ add_cumulative raw_data dates,
        (∀ s ∈ raw_data, ¬(s.country = r.toRow.country ∧ s.date = r.toRow.date)) →
        r.toRow.new_cases = 0 ∧ r.toRow.new_deaths = 0) := by
  refine ⟨add_cumulative_pairwise raw_data dates, ?_, ?_, ?_⟩
  · intro r hr
    rcases add_cumulative_toRow_mem hr with h | h
    · exact mem_uniqueSorted.mpr (List.mem_map_of_mem (fun x => x.country) h)
    · exact (mem_missingRows h).1
  · intro c hc
    have hstep := filter_country_map_date (add_cumulative raw_data dates) c
    rw [add_cumulative_map_toRow] at hstep
    have e1 : ((raw_data ++ missingRows raw_data dates).filter
          (fun x => x.country == c)).map (·.date)
        = ((raw_data.filter (fun x => x.country == c)).map (·.date))
            ++ dates.filter
              (fun d => !(((raw_data.filter (fun x => x.country == c)).map (·.date)).contains d)) := by
      rw [List.filter_append, List.map_append, filter_missingRows raw_data dates hc,
        missingBlock_map_date]
    have hp : (((List.insertionSort rowRel
          (raw_data ++ missingRows raw_data dates)).filter
            (fun x => x.country == c)).map (·.date)).Perm
        (((raw_data ++ missingRows raw_data dates).filter
            (fun x => x.country == c)).map (·.date)) :=
      ((List.perm_insertionSort rowRel _).filter _).map _
    rw [e1] at hp
    have hperm : (((List.insertionSort rowRel
          (raw_data ++ missingRows raw_data dates)).filter
            (fun x => x.country == c)).map (·.date)).Perm dates := by
      refine hp.trans (union_perm_dates (nodup_filtered_dates hnd c) hdnd ?_)
      intro d hd
      rcases List.mem_map.mp hd with ⟨r, hr, rfl⟩
      exact hdsub r (List.mem_of_mem_filter hr)
    rw [hstep]
    apply List.eq_of_perm_of_sorted hperm _ hdsorted
    rw [← hstep]
    exact add_cumulative_filter_pairwise_date raw_data dates c
  · intro r hr hnomatch
    rcases add_cumulative_toRow_mem hr with h | h
    · exact absurd ⟨rfl, rfl⟩ (hnomatch r.toRow h)
    · obtain ⟨_, h2, h3, _, _⟩ := mem_missingRows h
      exact ⟨h2, h3⟩

/-- Witness for C1: the spec example, raw rows for one country on days 1 and
3 with global dates [1, 2, 3], completes to exactly one row per global
date. -/
theorem C1_witness :
    ((add_cumulative
        [⟨"a", 1, 5, 0, "x"⟩, ⟨"a", 3, 2, 0, "y"⟩] [1, 2, 3]).filter
      (fun r => r.toRow.country == "a")).map (·.toRow.date) = [1, 2, 3] :=
  (C1_add_cumulative_completes
    [⟨"a", 1, 5, 0, "x"⟩, ⟨"a", 3, 2, 0, "y"⟩] [1, 2, 3]
    (by decide) (by decide) (by decide) (by decide)).2.2.1 "a" (by decide)

lemma mem_prefixSums_nonneg {l : List Int} (h : ∀ x ∈ l, 0 ≤ x) :
    ∀ p ∈ prefixSums l, 0 ≤ p := by
  intro p hp
  rcases List.mem_map.mp hp with ⟨k, _, rfl⟩
  exact List.sum_nonneg fun x hx => h x (List.mem_of_mem_take hx)

lemma prefixSums_pairwise_le {l : List Int} (h : ∀ x ∈ l, 0 ≤ x) :
    (prefixSums l).Pairwise (· ≤ ·) := by
  induction l with
  | nil => simp [prefixSums_nil]
  | cons a l ih =>
    rw [prefixSums_cons]
    refine List.pairwise_cons.mpr ⟨?_, ?_⟩
    · intro y hy
      rcases List.mem_map.mp hy with ⟨p, hp, rfl⟩
      have hnn := mem_prefixSums_nonneg
        (fun x hx => h x (List.mem_cons_of_mem _ hx)) p hp
      linarith
    · apply List.pairwise_map.mpr
      exact (ih fun x hx => h x (List.mem_cons_of_mem _ hx)).imp
        fun hxy => by linarith

/-- C2: in the frame returned by `add_cumulative`, the rows of every country
appear with dates ascending, the `sum_cases` (resp. `sum_deaths`) column of
those rows is exactly the prefix-sum sequence of the `new_cases` (resp.
`new_deaths`) column (position `k` of `prefixSums` is by definition the sum of
the first `k + 1` new counts), and when every raw new count is non-negative
both cumulative columns are monotonically non-decreasing along each
country. -/
theorem C2_cumulative_prefix_sums (raw_data : List Row) (dates : List Nat)
    (c : String) :
    ((((add_cumulative raw_data dates).filter
        (fun r => r.toRow.country == c)).map (·.toRow.date)).Pairwise (· ≤ ·))
    ∧ (((add_cumulative raw_data dates).filter
          (fun r => r.toRow.country == c)).map (·.sum_cases)
        = prefixSums (((add_cumulative raw_data dates).filter
            (fun r => r.toRow.country == c)).map (·.toRow.new_cases)))
    ∧ (((add_cumulative raw_data dates).filter
          (fun r => r.toRow.country == c)).map (·.sum_deaths)
        = prefixSums (((add_cumulative raw_data dates).filter
            (fun r => r.toRow.country == c)).map (·.toRow.new_deaths)))
    ∧ ((∀ r ∈ raw_data, 0 ≤ r.new_cases ∧ 0 ≤ r.new_deaths) →
        ((((add_cumulative raw_data dates).filter
            (fun r => r.toRow.country == c)).map (·.sum_cases)).Pairwise (· ≤ ·)
         ∧ (((add_cumulative raw_data dates).filter
            (fun r => r.toRow.country == c)).map (·.sum_deaths)).Pairwise (· ≤ ·))) := by
  have hmapc := filter_country_map_new_cases (add_cumulative raw_data dates) c
  rw [add_cumulative_map_toRow] at hmapc
  have hmapd := filter_country_map_new_deaths (add_cumulative raw_data dates) c
  rw [add_cumulative_map_toRow] at hmapd
  have hsumc := addSumsGo_filter_map_sum_cases
    (List.insertionSort rowRel (raw_data ++ missingRows raw_data dates)) [] c
  simp only [List.filter_nil, List.map_nil, List.sum_nil] at hsumc
  rw [withRun_zero] at hsumc
  have hsumd := addSumsGo_filter_map_sum_deaths
    (List.insertionSort rowRel (raw_data ++ missingRows raw_data dates)) [] c
  simp only [List.filter_nil, List.map_nil, List.sum_nil] at hsumd
  rw [withRun_zero] at hsumd
  have hc2 : ((add_cumulative raw_data dates).filter
        (fun r => r.toRow.country == c)).map (·.sum_cases)
      = prefixSums (((add_cumulative raw_data dates).filter
          (fun r => r.toRow.country == c)).map (·.toRow.new_cases)) := by
    rw [hmapc]
    exact hsumc
  have hd2 : ((add_cumulative raw_data dates).filter
        (fun r => r.toRow.country == c)).map (·.sum_deaths)
      = prefixSums (((add_cumulative raw_data dates).filter
          (fun r => r.toRow.country == c)).map (·.toRow.new_deaths)) := by
    rw [hmapd]
    exact hsumd
  refine ⟨add_cumulative_filter_pairwise_date raw_data dates c, hc2, hd2, ?_⟩
  intro hnn
  have hnewnn : ∀ r ∈ add_cumulative raw_data dates,
      0 ≤ r.toRow.new_cases ∧ 0 ≤ r.toRow.new_deaths := by
    intro r hr
    rcases add_cumulative_toRow_mem hr with h | h
    · exact hnn r.toRow h
    · obtain ⟨_, h2, h3, _, _⟩ := mem_missingRows h
      rw [h2, h3]
      exact ⟨le_refl 0, le_refl 0⟩
  constructor
  · rw [hc2]
    apply prefixSums_pairwise_le
    intro x hx
    rcases List.mem_map.mp hx with ⟨r, hr, rfl⟩
    exact (hnewnn r (List.mem_of_mem_filter hr)).1
  · rw [hd2]
    apply prefixSums_pairwise_le
    intro x hx
    rcases List.mem_map.mp hx with ⟨r, hr, rfl⟩
    exact (hnewnn r (List.mem_of_mem_filter hr)).2

/-- Witness for C2 on the spec example: the sum column of the completed
country is the prefix-sum sequence of its new counts and is
non-decreasing. -/
theorem C2_witness :
    (((add_cumulative [⟨"a", 1, 5, 0, "x"⟩, ⟨"a", 3, 2, 0, "y"⟩]
          [1, 2, 3]).filter
        (fun r => r.toRow.country == "a")).map (·.sum_cases)
      = prefixSums (((add_cumulative [⟨"a", 1, 5, 0, "x"⟩, ⟨"a", 3, 2, 0, "y"⟩]
            [1, 2, 3]).filter
          (fun r => r.toRow.country == "a")).map (·.toRow.new_cases)))
    ∧ (((add_cumulative [⟨"a", 1, 5, 0, "x"⟩, ⟨"a", 3, 2, 0, "y"⟩]
          [1, 2, 3]).filter
        (fun r => r.toRow.country == "a")).map (·.sum_cases)).Pairwise (· ≤ ·) :=
  ⟨(C2_cumulative_prefix_sums [⟨"a", 1, 5, 0, "x"⟩, ⟨"a", 3, 2, 0, "y"⟩]
      [1, 2, 3] "a").2.1,
   ((C2_cumulative_prefix_sums [⟨"a", 1, 5, 0, "x"⟩, ⟨"a", 3, 2, 0, "y"⟩]
      [1, 2, 3] "a").2.2.2 (by decide)).1⟩

lemma getLastD_mem {α : Type} :
    ∀ (l : List α) (d : α), l ≠ [] → l.getLastD d ∈ l
  | [], _, h => absurd rfl h
  | [a], _, _ => by simp
  | a :: b :: t, d, _ => by
    rw [List.getLastD_cons]
    exact List.mem_cons_of_mem a (getLastD_mem (b :: t) a (by simp))

lemma sorted_getLastD_max : ∀ (l : List Row) (d : Row),
    l.Pairwise (fun a b => a.date ≤ b.date) →
    ∀ s ∈ l, s.date ≤ (l.getLastD d).date := by
  intro l
  induction l with
  | nil => intro d _ s hs2; cases hs2
  | cons a t ih =>
    intro d hp s hs2
    rcases List.pairwise_cons.mp hp with ⟨ha, ht⟩
    cases t with
    | nil =>
      rcases List.mem_singleton.mp hs2 with rfl
      simp
    | cons b t2 =>
      rw [List.getLastD_cons]
      rcases List.mem_cons.mp hs2 with rfl | hmem
      · exact ha _ (getLastD_mem (b :: t2) s (by simp))
      · exact ih _ ht s hmem

/-- C4 counterexample: with the raw rows of country "b" listed in
date-descending order, the maximum raw date is 2 and its row carries aux
attribute "B2", yet the row `add_cumulative` synthesizes for the missing
date 3 carries "B1", copied from the positionally last input row, not from
the chronologically last one — refuting the claim at this input. -/
theorem C4_counterexample :
    (([⟨"b", 2, 7, 1, "B2"⟩, ⟨"b", 1, 3, 1, "B1"⟩] : List Row).map
        (fun r => (r.country, r.date)) = [("b", 2), ("b", 1)])
    ∧ (((add_cumulative [⟨"b", 2, 7, 1, "B2"⟩, ⟨"b", 1, 3, 1, "B1"⟩]
          [1, 2, 3]).filter (fun r => r.toRow.date == 3)).map (·.toRow.aux)
        = ["B1"])
    ∧ ((([⟨"b", 2, 7, 1, "B2"⟩, ⟨"b", 1, 3, 1, "B1"⟩] : List Row).filter
          (fun r => r.date == 2)).map (·.aux) = ["B2"])
    ∧ "B1" ≠ "B2" := by
  decide

/-- C4 amended: every synthesized row copies its auxiliary attributes from
the positionally last raw row of its country in the raw input order, and has
zero counts; when the raw rows of that country happen to be listed in
date-ascending order this positionally last row is also the one with the
maximum date, but for other input orderings it need not be. -/
theorem C4_missing_aux_from_last_input_row (raw_data : List Row)
    (dates : List Nat) :
    ∀ r ∈ add_cumulative raw_data dates,
    (∀ s ∈ raw_data, ¬(s.country = r.toRow.country ∧ s.date = r.toRow.date)) →
    (r.toRow.aux
        = ((raw_data.filter
            (fun x => x.country == r.toRow.country)).getLastD default).aux
      ∧ r.toRow.new_cases = 0 ∧ r.toRow.new_deaths = 0
      ∧ ((raw_data.filter (fun x => x.country == r.toRow.country)).Pairwise
            (fun a b => a.date ≤ b.date) →
          ∀ s ∈ raw_data.filter (fun x => x.country == r.toRow.country),
            s.date ≤ ((raw_data.filter
              (fun x => x.country == r.toRow.country)).getLastD default).date)) := by
  intro r hr hnomatch
  rcases add_cumulative_toRow_mem hr with h | h
  · exact absurd ⟨rfl, rfl⟩ (hnomatch r.toRow h)
  · obtain ⟨_, h2, h3, _, h5⟩ := mem_missingRows h
    exact ⟨h5, h2, h3, fun hs => sorted_getLastD_max _ default hs⟩

/-- Witness for the amended C4: the synthesized (b, 3) row of the
counterexample dataset indeed copies "B1", the aux value of the positionally
last raw row. -/
theorem C4_witness :
    (⟨⟨"b", 3, 0, 0, "B1"⟩, 10, 2⟩ : CumRow).toRow.aux
      = ((([⟨"b", 2, 7, 1, "B2"⟩, ⟨"b", 1, 3, 1, "B1"⟩] : List Row).filter
          (fun x => x.country
            == (⟨⟨"b", 3, 0, 0, "B1"⟩, 10, 2⟩ : CumRow).toRow.country)).getLastD
          default).aux :=
  (C4_missing_aux_from_last_input_row
    [⟨"b", 2, 7, 1, "B2"⟩, ⟨"b", 1, 3, 1, "B1"⟩] [1, 2, 3]
    ⟨⟨"b", 3, 0, 0, "B1"⟩, 10, 2⟩ (by decide) (by decide)).1

/-! Lemmas about `norm_population`. -/

lemma normRowOf_toCumRow (capita : ℚ) (r : CumRow) :
    (normRowOf capita r).toCumRow = r := rfl

lemma blankNormRow_toCumRow (r : CumRow) : (blankNormRow r).toCumRow = r := rfl

lemma normStep_fold (population : List PopRow) (data : List CumRow) :
    ∀ (cs : List String) (g : CumRow → NormRow),
    (∀ r, (g r).toCumRow = r) →
    cs.foldl (normStep population) (data.map g)
      = data.map (fun r =>
          if r.country ∈ cs ∧
              (population.filter (fun p => p.Region == r.country)).length = 1
          then normRowOf
            (((population.filter
                (fun p => p.Region == r.country)).headD default).Population_2020 / 100) r
          else g r) := by
  intro cs
  induction cs with
  | nil =>
    intro g hg
    rw [List.foldl_nil]
    apply (List.map_congr_left ?_).symm
    intro r _
    rw [if_neg]
    rintro ⟨h1, _⟩
    cases h1
  | cons c cs ih =>
    intro g hg
    rw [List.foldl_cons]
    by_cases hm : (population.filter (fun p => p.Region == c)).length = 1
    · have hstep : normStep population (data.map g) c
          = data.map (fun r => if r.country = c
              then normRowOf
                (((population.filter
                    (fun p => p.Region == c)).headD default).Population_2020 / 100) r
              else g r) := by
        unfold normStep
        rw [if_neg (by simpa using hm), List.map_map]
        apply List.map_congr_left
        intro r _
        have hcountry : (g r).country = r.country := by
          show ((g r).toCumRow).toRow.country = r.toRow.country
          rw [hg r]
        show (if ((g r).country == c) = true then
            normRowOf _ (g r).toCumRow else g r) = _
        rw [hcountry, hg r]
        by_cases hc : r.country = c
        · rw [if_pos (by simpa using hc), if_pos hc]
        · rw [if_neg (by simpa using hc), if_neg hc]
      rw [hstep]
      have hg' : ∀ r : CumRow,
          ((fun r => if r.country = c
              then normRowOf
                (((population.filter
                    (fun p => p.Region == c)).headD default).Population_2020 / 100) r
              else g r) r).toCumRow = r := by
        intro r
        by_cases hr : r.country = c
        · show ((if r.country = c then _ else _ : NormRow)).toCumRow = r
          rw [if_pos hr]
          rfl
        · show ((if r.country = c then _ else _ : NormRow)).toCumRow = r
          rw [if_neg hr]
          exact hg r
      rw [ih _ hg']
      apply List.map_congr_left
      intro r _
      by_cases h1 : r.country ∈ cs ∧
          (population.filter (fun p => p.Region == r.country)).length = 1
      · have h2 : r.country ∈ c :: cs ∧
            (population.filter (fun p => p.Region == r.country)).length = 1 :=
          ⟨List.mem_cons_of_mem _ h1.1, h1.2⟩
        rw [if_pos h1, if_pos h2]
      · rw [if_neg h1]
        by_cases hc : r.country = c
        · have hm' : (population.filter
              (fun p => p.Region == r.country)).length = 1 := by
            rw [hc]
            exact hm
          have h2 : r.country ∈ c :: cs ∧
              (population.filter (fun p => p.Region == r.country)).length = 1 := by
            refine ⟨?_, hm'⟩
            rw [hc]
            exact List.mem_cons_self c cs
          rw [if_pos hc, if_pos h2, hc]
        · have h2 : ¬(r.country ∈ c :: cs ∧
              (population.filter (fun p => p.Region == r.country)).length = 1) := by
            rintro ⟨hmem, hm'⟩
            rcases List.mem_cons.mp hmem with h | h
            · exact hc h
            · exact h1 ⟨h, hm'⟩
          rw [if_neg hc, if_neg h2]
    · have hstep : normStep population (data.map g) c = data.map g := by
        unfold normStep
        rw [if_pos (by simpa using hm)]
      rw [hstep, ih g hg]
      apply List.map_congr_left
      intro r _
      by_cases h1 : r.country ∈ cs ∧
          (population.filter (fun p => p.Region == r.country)).length = 1
      · rw [if_pos h1, if_pos ⟨List.mem_cons_of_mem _ h1.1, h1.2⟩]
      · rw [if_neg h1, if_neg]
        rintro ⟨hmem, hm'⟩
        rcases List.mem_cons.mp hmem with h | h
        · exact hm (h ▸ hm')
        · exact h1 ⟨h, hm'⟩

lemma norm_population_eq (data : List CumRow) (population : List PopRow) :
    norm_population data population
      = data.map (fun r =>
          if (population.filter (fun p => p.Region == r.country)).length = 1
          then normRowOf
            (((population.filter
                (fun p => p.Region == r.country)).headD default).Population_2020 / 100) r
          else blankNormRow r) := by
  unfold norm_population
  rw [normStep_fold population data _ blankNormRow (fun r => rfl)]
  apply List.map_congr_left
  intro r hr
  have hmem : r.country ∈ uniqueSorted (data.map (·.country)) :=
    mem_uniqueSorted.mpr (List.mem_map_of_mem (fun x => x.country) hr)
  by_cases hm : (population.filter (fun p => p.Region == r.country)).length = 1
  · rw [if_pos ⟨hmem, hm⟩, if_pos hm]
  · rw [if_neg (fun h => hm h.2), if_neg hm]

lemma getD_map_of_lt {α β : Type} [Inhabited α] [Inhabited β] (l : List α)
    (f : α → β) (i : Nat) (hi : i < l.length) :
    (l.map f).getD i default = f (l.getD i default) := by
  rw [List.getD_eq_getElem?_getD, List.getElem?_map,
    List.getD_eq_getElem?_getD, List.getElem?_eq_getElem hi]
  rfl

/-- C3: after `norm_population`, a row whose country matches exactly one
population row carries, in each of the four per-capita columns, the
corresponding source column divided by `Population_2020 / 100` (the content of
`normRowOf`), and a row whose country has zero or several matches keeps all
four columns undefined (`none`, never zero).  The positivity hypothesis marks
the regime where the rational model and the floating-point division of the
code agree (a zero population would produce an infinite float, not a
rational). -/
theorem C3_norm_population_per_capita (data : List CumRow)
    (population : List PopRow)
    (_hpos : ∀ p ∈ population, 0 < p.Population_2020)
    (i : Nat) (hi : i < data.length) :
    (((population.filter
          (fun p => p.Region == (data.getD i default).country)).length = 1 →
        (norm_population data population).getD i default
          = normRowOf
              (((population.filter
                  (fun p => p.Region == (data.getD i default).country)).headD
                  default).Population_2020 / 100)
              (data.getD i default))
    ∧ ((population.filter
          (fun p => p.Region == (data.getD i default).country)).length ≠ 1 →
        (norm_population data population).getD i default
          = blankNormRow (data.getD i default))) := by
  have hmap := norm_population_eq data population
  have hget : (norm_population data population).getD i default
      = if (population.filter
            (fun p => p.Region == (data.getD i default).country)).length = 1
        then normRowOf
          (((population.filter
              (fun p => p.Region == (data.getD i default).country)).headD
              default).Population_2020 / 100)
          (data.getD i default)
        else blankNormRow (data.getD i default) := by
    rw [hmap, getD_map_of_lt data _ i hi]
  constructor
  · intro hm
    rw [hget, if_pos hm]
  · intro hm
    rw [hget, if_neg hm]

/-- Witness for C3: a one-row frame and a uniquely matching population row of
300 thousand inhabitants; the per-capita columns are the source columns
divided by 3. -/
theorem C3_witness :
    (norm_population [⟨⟨"a", 1, 5, 0, "x"⟩, 5, 0⟩] [⟨"a", 300⟩]).getD 0 default
      = normRowOf
          (((([⟨"a", 300⟩] : List PopRow).filter
              (fun p => p.Region
                == (([⟨⟨"a", 1, 5, 0, "x"⟩, 5, 0⟩] : List CumRow).getD 0
                      default).country)).headD default).Population_2020 / 100)
          (([⟨⟨"a", 1, 5, 0, "x"⟩, 5, 0⟩] : List CumRow).getD 0 default) :=
  (C3_norm_population_per_capita [⟨⟨"a", 1, 5, 0, "x"⟩, 5, 0⟩] [⟨"a", 300⟩]
    (by decide) 0 (by decide)).1 (by decide)

/-- C10: `norm_population` only writes the four per-capita columns: stripping
them recovers the input frame exactly, so every other column, the row count
and the row order are unchanged.  The Python function performs this as an
in-place mutation and returns `None`; the model returns the final state of
the frame. -/
theorem C10_norm_population_frame_effect (data : List CumRow)
    (population : List PopRow) :
    ((norm_population data population).map (·.toCumRow) = data)
    ∧ ((norm_population data population).length = data.length) := by
  have hmap := norm_population_eq data population
  constructor
  · rw [hmap, List.map_map]
    have hpt : ∀ r ∈ data, ((fun x : NormRow => x.toCumRow) ∘ fun r =>
        if (population.filter (fun p => p.Region == r.country)).length = 1
        then normRowOf
          (((population.filter
              (fun p => p.Region == r.country)).headD default).Population_2020 / 100) r
        else blankNormRow r) r = id r := by
      intro r _
      by_cases hm : (population.filter
          (fun p => p.Region == r.country)).length = 1
      · simp only [Function.comp_apply, if_pos hm, normRowOf_toCumRow, id]
      · simp only [Function.comp_apply, if_neg hm, blankNormRow_toCumRow, id]
    rw [List.map_congr_left hpt, List.map_id]
  · rw [hmap, List.length_map]

/-! Lemmas about the value transform. -/

lemma transformValues_map (log : Bool) (lg : ℚ → ℚ)
    (values : List (Option ℚ)) :
    transformValues log lg values = values.map (transformCell log lg) := by
  cases log
  · show values = values.map (transformCell false lg)
    rw [show values.map (transformCell false lg) = values.map id from
      List.map_congr_left fun v _ => rfl, List.map_id]
  · rfl

lemma transformValues_length (log : Bool) (lg : ℚ → ℚ)
    (values : List (Option ℚ)) :
    (transformValues log lg values).length = values.length := by
  rw [transformValues_map, List.length_map]

lemma transformValues_nil (log : Bool) (lg : ℚ → ℚ) :
    transformValues log lg [] = [] := by
  rw [transformValues_map, List.map_nil]

/-- C6: `do_log` is the element-wise transform that sends a `NaN` cell to
`NaN`, a non-positive value to `NaN` and a positive value `v` to `log(v)`,
preserving length and order, and the flag-off path of the shared
`if log: values = do_log(values)` step (used by both `get_min_max` and
`create_style` through `transformValues`) is the identity. -/
theorem C6_do_log_transform (lg : ℚ → ℚ) (values : List (Option ℚ)) :
    ((do_log lg values).length = values.length)
    ∧ (∀ i : Nat, (do_log lg values).getD i none
        = doLogCell lg (values.getD i none))
    ∧ (∀ v : ℚ, 0 < v → doLogCell lg (some v) = some (lg v))
    ∧ (∀ v : ℚ, v ≤ 0 → doLogCell lg (some v) = none)
    ∧ (doLogCell lg none = none)
    ∧ (transformValues false lg values = values)
    ∧ (transformValues true lg values = do_log lg values) := by
  refine ⟨by simp [do_log], ?_, ?_, ?_, rfl, rfl, rfl⟩
  · intro i
    rw [List.getD_eq_getElem?_getD, List.getD_eq_getElem?_getD, do_log,
      List.getElem?_map]
    cases values[i]? with
    | none => rfl
    | some v => rfl
  · intro v hv
    have hneg : ¬ v ≤ 0 := not_le.mpr hv
    simp [doLogCell, hneg]
  · intro v hv
    simp [doLogCell, hv]

/-- Witness for C6 at `lg := id` on a three-cell list: length preserved, a
positive cell mapped through the log, a non-positive cell mapped to the
undefined marker. -/
theorem C6_witness :
    ((do_log id [some 2, some (-1), none]).length
        = ([some 2, some (-1), none] : List (Option ℚ)).length)
    ∧ doLogCell id (some (2 : ℚ)) = some (id 2)
    ∧ doLogCell id (some (-1 : ℚ)) = none :=
  ⟨(C6_do_log_transform id [some 2, some (-1), none]).1,
   (C6_do_log_transform id [some 2, some (-1), none]).2.2.1 2 (by decide),
   (C6_do_log_transform id [some 2, some (-1), none]).2.2.2.1 (-1) (by decide)⟩

/-! Lemmas about `get_min_max`. -/

/-- The values a listed country actually contributes to the range computed by
`get_min_max`: the defined (non-`NaN`) transformed values of its rows, unless
the first transformed value is undefined, in which case the Python built-ins
return `NaN`, the outer `min`/`max` ignore it, and the country contributes
nothing at all. -/
def definedContrib (data : List MRow) (lg : ℚ → ℚ) (log : Bool)
    (country : String) : List ℚ :=
  match transformValues log lg
      ((data.filter (fun r => r.country == country)).map (·.value)) with
  | [] => []
  | none :: _ => []
  | some a :: rest => a :: rest.filterMap id

/-- Stated from the spec wording of C5, for comparison with `get_min_max`:
the minimum and maximum of all defined transformed values of the listed
countries, each seeded with `0.0`, with only the undefined values
excluded. -/
def specGetMinMax (data : List MRow) (countries : List String) (lg : ℚ → ℚ)
    (log : Bool) : Option ℚ × Option ℚ :=
  let vals := countries.flatMap (fun c =>
    (transformValues log lg
      ((data.filter (fun r => r.country == c)).map (·.value))).filterMap id)
  (some (vals.foldl min 0), some (vals.foldl max 0))

lemma pyLt_none_right (y : Option ℚ) : pyLt y none = false := by
  cases y <;> rfl

lemma pyGt_none_right (y : Option ℚ) : pyGt y none = false := by
  cases y <;> rfl

lemma pyFoldMin_none : ∀ rest : List (Option ℚ),
    rest.foldl (fun acc y => if pyLt y acc then y else acc) none = none
  | [] => rfl
  | y :: rest => by
    rw [List.foldl_cons, pyLt_none_right y]
    simp only [Bool.false_eq_true, if_false]
    exact pyFoldMin_none rest

lemma pyFoldMax_none : ∀ rest : List (Option ℚ),
    rest.foldl (fun acc y => if pyGt y acc then y else acc) none = none
  | [] => rfl
  | y :: rest => by
    rw [List.foldl_cons, pyGt_none_right y]
    simp only [Bool.false_eq_true, if_false]
    exact pyFoldMax_none rest

lemma pyMinL_none_head (rest : List (Option ℚ)) :
    pyMinL (none :: rest) = none :=
  pyFoldMin_none rest

lemma pyMaxL_none_head (rest : List (Option ℚ)) :
    pyMaxL (none :: rest) = none :=
  pyFoldMax_none rest

lemma pyMinL_some_head : ∀ (rest : List (Option ℚ)) (a : ℚ),
    pyMinL (some a :: rest) = some ((rest.filterMap id).foldl min a)
  | [], a => rfl
  | y :: rest, a => by
    cases y with
    | none =>
      show (none :: rest).foldl (fun acc y => if pyLt y acc then y else acc)
          (some a) = _
      rw [List.foldl_cons, show pyLt none (some a) = false from rfl]
      simp only [Bool.false_eq_true, if_false, List.filterMap_cons_none]
      exact pyMinL_some_head rest a
    | some b =>
      show (some b :: rest).foldl (fun acc y => if pyLt y acc then y else acc)
          (some a) = _
      have hfm : List.filterMap id (some b :: rest)
          = b :: List.filterMap id rest := by simp
      rw [List.foldl_cons, hfm, List.foldl_cons]
      have hstep : (if pyLt (some b) (some a) then some b else some a)
          = some (min a b) := by
        by_cases hba : b < a
        · rw [if_pos (by simpa [pyLt] using hba), min_comm,
            min_eq_left hba.le]
        · rw [if_neg (by simpa [pyLt] using hba),
            min_eq_left (not_lt.mp hba)]
      rw [hstep]
      exact pyMinL_some_head rest (min a b)

lemma pyMaxL_some_head : ∀ (rest : List (Option ℚ)) (a : ℚ),
    pyMaxL (some a :: rest) = some ((rest.filterMap id).foldl max a)
  | [], a => rfl
  | y :: rest, a => by
    cases y with
    | none =>
      show (none :: rest).foldl (fun acc y => if pyGt y acc then y else acc)
          (some a) = _
      rw [List.foldl_cons, show pyGt none (some a) = false from rfl]
      simp only [Bool.false_eq_true, if_false, List.filterMap_cons_none]
      exact pyMaxL_some_head rest a
    | some b =>
      show (some b :: rest).foldl (fun acc y => if pyGt y acc then y else acc)
          (some a) = _
      have hfm : List.filterMap id (some b :: rest)
          = b :: List.filterMap id rest := by simp
      rw [List.foldl_cons, hfm, List.foldl_cons]
      have hstep : (if pyGt (some b) (some a) then some b else some a)
          = some (max a b) := by
        by_cases hba : a < b
        · rw [if_pos (by simpa [pyGt] using hba), max_comm,
            max_eq_left hba.le]
        · rw [if_neg (by simpa [pyGt] using hba),
            max_eq_left (not_lt.mp hba)]
      rw [hstep]
      exact pyMaxL_some_head rest (max a b)

lemma pyMin2_some_none (m : ℚ) : pyMin2 (some m) none = some m := rfl

lemma pyMax2_some_none (m : ℚ) : pyMax2 (some m) none = some m := rfl

lemma pyMin2_some_some (m x : ℚ) :
    pyMin2 (some m) (some x) = some (min m x) := by
  unfold pyMin2
  by_cases hxm : x < m
  · rw [if_pos (by simpa [pyLt] using hxm), min_comm, min_eq_left hxm.le]
  · rw [if_neg (by simpa [pyLt] using hxm), min_eq_left (not_lt.mp hxm)]

lemma pyMax2_some_some (m x : ℚ) :
    pyMax2 (some m) (some x) = some (max m x) := by
  unfold pyMax2
  by_cases hxm : m < x
  · rw [if_pos (by simpa [pyGt] using hxm), max_comm, max_eq_left hxm.le]
  · rw [if_neg (by simpa [pyGt] using hxm), max_eq_left (not_lt.mp hxm)]

lemma foldl_min_comm : ∀ (S : List ℚ) (a m : ℚ),
    min m (S.foldl min a) = S.foldl min (min m a)
  | [], _, _ => rfl
  | x :: S, a, m => by
    rw [List.foldl_cons, List.foldl_cons, foldl_min_comm S (min a x) m,
      min_assoc]

lemma foldl_max_comm : ∀ (S : List ℚ) (a m : ℚ),
    max m (S.foldl max a) = S.foldl max (max m a)
  | [], _, _ => rfl
  | x :: S, a, m => by
    rw [List.foldl_cons, List.foldl_cons, foldl_max_comm S (max a x) m,
      max_assoc]

lemma get_min_max_foldl (data : List MRow) (lg : ℚ → ℚ) (log : Bool) :
    ∀ (countries : List String) (m M : ℚ),
    countries.foldl
      (fun mv country =>
        let datai := data.filter (fun r => r.country == country)
        if datai.isEmpty then mv
        else
          let values := transformValues log lg (datai.map (·.value))
          (pyMin2 mv.1 (pyMinL values), pyMax2 mv.2 (pyMaxL values)))
      (some m, some M)
      = (some ((countries.flatMap (definedContrib data lg log)).foldl min m),
         some ((countries.flatMap (definedContrib data lg log)).foldl max M)) := by
  intro countries
  induction countries with
  | nil => intro m M; rfl
  | cons c cs ih =>
    intro m M
    rw [List.foldl_cons, List.flatMap_cons, List.foldl_append,
      List.foldl_append]
    by_cases hemp : (data.filter (fun r => r.country == c)).isEmpty
    · have hcon : definedContrib data lg log c = [] := by
        unfold definedContrib
        rw [List.isEmpty_iff.mp hemp, List.map_nil, transformValues_nil]
      simp only [hemp, if_true]
      rw [ih m M, hcon]
      rfl
    · simp only [hemp, Bool.false_eq_true, if_false]
      rcases hv : transformValues log lg
          ((data.filter (fun r => r.country == c)).map (·.value)) with
        _ | ⟨v0, rest⟩
      · exfalso
        have hlen := transformValues_length log lg
          ((data.filter (fun r => r.country == c)).map (·.value))
        rw [hv] at hlen
        simp only [List.length_nil, List.length_map] at hlen
        rw [List.isEmpty_iff] at hemp
        exact hemp (List.length_eq_zero.mp hlen.symm)
      · cases v0 with
        | none =>
          have hcon2 : definedContrib data lg log c = [] := by
            unfold definedContrib
            rw [hv]
          rw [hv, pyMinL_none_head, pyMaxL_none_head, pyMin2_some_none,
            pyMax2_some_none, ih m M, hcon2]
          rfl
        | some a =>
          have hcon2 : definedContrib data lg log c = a :: rest.filterMap id := by
            unfold definedContrib
            rw [hv]
          rw [hv, pyMinL_some_head, pyMaxL_some_head, pyMin2_some_some,
            pyMax2_some_some]
          have e1 : min m ((rest.filterMap id).foldl min a)
              = (a :: rest.filterMap id).foldl min m := by
            rw [List.foldl_cons]
            exact foldl_min_comm _ _ _
          have e2 : max M ((rest.filterMap id).foldl max a)
              = (a :: rest.filterMap id).foldl max M := by
            rw [List.foldl_cons]
            exact foldl_max_comm _ _ _
          rw [e1, e2, hcon2]
          exact ih _ _

lemma mem_definedContrib_false {data : List MRow} {lg : ℚ → ℚ} {c : String}
    {x : ℚ} (h : x ∈ definedContrib data lg false c) :
    ∃ r ∈ data, r.value = some x := by
  unfold definedContrib at h
  have hid : transformValues false lg
      ((data.filter (fun r => r.country == c)).map (·.value))
      = (data.filter (fun r => r.country == c)).map (·.value) := rfl
  rw [hid] at h
  rcases hL : (data.filter (fun r => r.country == c)).map (·.value) with
    _ | ⟨v0, rest⟩
  · rw [hL] at h
    cases h
  · rw [hL] at h
    cases v0 with
    | none => cases h
    | some a =>
      have hsx : some x ∈ (data.filter (fun r => r.country == c)).map (·.value) := by
        rw [hL]
        rcases List.mem_cons.mp h with rfl | hx
        · exact List.mem_cons_self _ _
        · rcases List.mem_filterMap.mp hx with ⟨o, ho, heq⟩
          cases o with
          | none => cases heq
          | some b =>
            rw [show (some x : Option ℚ) = some b by
              simpa using heq.symm]
            exact List.mem_cons_of_mem _ ho
      rcases List.mem_map.mp hsx with ⟨r, hr, hrv⟩
      exact ⟨r, List.mem_of_mem_filter hr, hrv⟩

lemma foldl_min_nonneg : ∀ (S : List ℚ) (a : ℚ), 0 ≤ a →
    (∀ x ∈ S, 0 ≤ x) → 0 ≤ S.foldl min a
  | [], a, ha, _ => ha
  | x :: S, a, ha, hS => by
    rw [List.foldl_cons]
    exact foldl_min_nonneg S (min a x)
      (le_min ha (hS x (List.mem_cons_self _ _)))
      (fun y hy => hS y (List.mem_cons_of_mem _ hy))

/-- C5 counterexample: country "a" has a `NaN` cell first and the defined
value 5 second (transform off).  The spec-stated range would report a maximum
of 5, but the Python built-in `max` returns `NaN` for any list whose running
maximum starts at `NaN`, the outer `max` then ignores it, and `get_min_max`
reports (0, 0): the defined value 5 is silently excluded from the bounds. -/
theorem C5_counterexample :
    (get_min_max [⟨"a", 1, none⟩, ⟨"a", 2, some 5⟩] ["a"] id false
      = (some 0, some 0))
    ∧ (specGetMinMax [⟨"a", 1, none⟩, ⟨"a", 2, some 5⟩] ["a"] id false
      = (some 0, some 5))
    ∧ (get_min_max [⟨"a", 1, none⟩, ⟨"a", 2, some 5⟩] ["a"] id false
      ≠ specGetMinMax [⟨"a", 1, none⟩, ⟨"a", 2, some 5⟩] ["a"] id false) := by
  refine ⟨rfl, rfl, ?_⟩
  intro h
  cases h

/-- C5 amended: `get_min_max` returns the minimum and maximum, each seeded
with `0.0`, of the values the listed countries contribute; a country
contributes its defined (log-transformed, when the flag is set) values unless
its first transformed value is undefined, in which case the whole country is
excluded from both bounds (a consequence of the `NaN` semantics of the Python
built-ins); undefined values never enter the bounds, and in particular, for
an all-nonnegative column with the transform off, the returned minimum is
never negative. -/
theorem C5_get_min_max_range (data : List MRow) (countries : List String)
    (lg : ℚ → ℚ) (log : Bool) :
    (get_min_max data countries lg log
      = (some ((countries.flatMap (definedContrib data lg log)).foldl min 0),
         some ((countries.flatMap (definedContrib data lg log)).foldl max 0)))
    ∧ (log = false → (∀ r ∈ data, 0 ≤ r.value.getD 0) →
        ∀ mn : ℚ, (get_min_max data countries lg log).1 = some mn → 0 ≤ mn) := by
  have hmain := get_min_max_foldl data lg log countries 0 0
  constructor
  · exact hmain
  · intro hlog hnn mn hmn
    rw [show (get_min_max data countries lg log).1
        = some ((countries.flatMap (definedContrib data lg log)).foldl min 0)
      from congrArg Prod.fst hmain] at hmn
    have hmn2 : mn = (countries.flatMap (definedContrib data lg log)).foldl min 0 :=
      (Option.some_inj.mp hmn).symm
    rw [hmn2]
    apply foldl_min_nonneg _ _ (le_refl 0)
    intro x hx
    rcases List.mem_flatMap.mp hx with ⟨c, _, hxc⟩
    subst hlog
    rcases mem_definedContrib_false hxc with ⟨r, hr, hrv⟩
    have := hnn r hr
    rw [hrv] at this
    exact this

/-- Witness for the amended C5: a single defined value 3 gives the range
seeded at zero, and the reported minimum is non-negative. -/
theorem C5_witness :
    (get_min_max [⟨"a", 1, some 3⟩] ["a"] id false
      = (some (((["a"].flatMap
            (definedContrib [⟨"a", 1, some 3⟩] id false)).foldl min 0)),
         some (((["a"].flatMap
            (definedContrib [⟨"a", 1, some 3⟩] id false)).foldl max 0))))
    ∧ (0 : ℚ) ≤ 0 :=
  ⟨(C5_get_min_max_range [⟨"a", 1, some 3⟩] ["a"] id false).1,
   (C5_get_min_max_range [⟨"a", 1, some 3⟩] ["a"] id false).2 rfl (by decide)
     0 (by decide)⟩

/-! Lemmas about `create_style`. -/

lemma mem_create_style {data : List MRow} {geojson : List Feature}
    {countries : List String} {cm : ℚ → String} {lg : ℚ → ℚ} {log : Bool}
    {th : Option ℚ} {kv : String × List Style}
    (h : kv ∈ create_style data geojson countries cm lg log th) :
    ∃ c, c ∈ countries ∧ get_country_id c geojson = some kv.1
      ∧ (data.filter (fun r => r.country == c)) ≠ []
      ∧ kv.2 = (transformValues log lg
          ((data.filter (fun r => r.country == c)).map (·.value))).map
            (styleOf cm th) := by
  have key : ∀ (cs : List String) (acc : List (String × List Style)),
      (∀ c ∈ cs, c ∈ countries) →
      (∀ kv2 ∈ acc, ∃ c, c ∈ countries ∧ get_country_id c geojson = some kv2.1
        ∧ (data.filter (fun r => r.country == c)) ≠ []
        ∧ kv2.2 = (transformValues log lg
            ((data.filter (fun r => r.country == c)).map (·.value))).map
              (styleOf cm th)) →
      ∀ kv2 ∈ cs.foldl
          (fun style_dict country =>
            let datai := data.filter (fun r => r.country == country)
            if datai.isEmpty then style_dict
            else
              let values := transformValues log lg (datai.map (·.value))
              match get_country_id country geojson with
              | none => style_dict
              | some country_idx =>
                dinsert style_dict country_idx (values.map (styleOf cm th)))
          acc,
        ∃ c, c ∈ countries ∧ get_country_id c geojson = some kv2.1
          ∧ (data.filter (fun r => r.country == c)) ≠ []
          ∧ kv2.2 = (transformValues log lg
              ((data.filter (fun r => r.country == c)).map (·.value))).map
                (styleOf cm th) := by
    intro cs
    induction cs with
    | nil => intro acc _ hacc kv2 hkv2; exact hacc kv2 hkv2
    | cons c cs ih =>
      intro acc hsub hacc kv2 hkv2
      rw [List.foldl_cons] at hkv2
      by_cases hemp : (data.filter (fun r => r.country == c)).isEmpty
      · rw [if_pos hemp] at hkv2
        exact ih acc (fun c2 hc2 => hsub c2 (List.mem_cons_of_mem _ hc2))
          hacc kv2 hkv2
      · rw [if_neg hemp] at hkv2
        rcases hg : get_country_id c geojson with _ | idx
        · rw [hg] at hkv2
          exact ih acc (fun c2 hc2 => hsub c2 (List.mem_cons_of_mem _ hc2))
            hacc kv2 hkv2
        · rw [hg] at hkv2
          refine ih _ (fun c2 hc2 => hsub c2 (List.mem_cons_of_mem _ hc2))
            ?_ kv2 hkv2
          intro kv3 hkv3
          rcases mem_dinsert hkv3 with h3 | h3
          · exact hacc kv3 h3
          · refine ⟨c, hsub c (List.mem_cons_self _ _), ?_, ?_, ?_⟩
            · rw [h3]
              exact hg
            · intro hnil
              rw [hnil] at hemp
              exact hemp rfl
            · rw [h3]
  exact key countries [] (fun _ hc => hc) (fun kv2 hkv2 => absurd hkv2
    (List.not_mem_nil kv2)) kv h

lemma styleList_eq (cm : ℚ → String) (th : Option ℚ) (lg : ℚ → ℚ)
    (log : Bool) (l : List MRow) :
    (transformValues log lg (l.map (·.value))).map (styleOf cm th)
      = l.map (fun r => styleOf cm th (transformCell log lg r.value)) := by
  rw [transformValues_map, List.map_map, List.map_map]
  exact List.map_congr_left fun r _ => rfl

/-- C7: every entry `create_style` emits pairs the feature id of one of the
listed countries with, for each time-ordered value of that country, the style
given by the three-case rule: an undefined (transformed) value gets opacity 0
and the fixed sentinel color `#ffffff`; a defined value below a configured
threshold gets the same sentinel style regardless of the color map; any other
defined value gets the fixed visible opacity `OPACITY` and the color the color
map assigns to the transformed value. -/
theorem C7_create_style_three_cases (data : List MRow) (geojson : List Feature)
    (countries : List String) (cm : ℚ → String) (lg : ℚ → ℚ) (log : Bool)
    (th : Option ℚ) :
    (∀ kv ∈ create_style data geojson countries cm lg log th,
      ∃ c, c ∈ countries ∧ get_country_id c geojson = some kv.1 ∧
        kv.2 = (data.filter (fun r => r.country == c)).map
          (fun r => styleOf cm th (transformCell log lg r.value)))
    ∧ (styleOf cm th none = ⟨"#ffffff", 0⟩)
    ∧ (∀ t v, th = some t → v < t →
        styleOf cm th (some v) = ⟨"#ffffff", 0⟩)
    ∧ (∀ t v, th = some t → ¬(v < t) →
        styleOf cm th (some v) = ⟨cm v, OPACITY⟩)
    ∧ (th = none → ∀ v, styleOf cm th (some v) = ⟨cm v, OPACITY⟩) := by
  refine ⟨?_, rfl, ?_, ?_, ?_⟩
  · intro kv hkv
    rcases mem_create_style hkv with ⟨c, hc, hid, _, hval⟩
    refine ⟨c, hc, hid, ?_⟩
    rw [hval, styleList_eq]
  · intro t v ht hvt
    subst ht
    show (if v < t then _ else _) = _
    rw [if_pos hvt]
  · intro t v ht hvt
    subst ht
    show (if v < t then _ else _) = _
    rw [if_neg hvt]
  · intro ht v
    subst ht
    rfl

/-- Witness for C7: one country, a matching feature, no threshold; the single
emitted entry keys the feature id to the styled value list, and a defined
value with no threshold is styled with the color map and `OPACITY`. -/
theorem C7_witness :
    (∃ c, c ∈ ["a"] ∧ get_country_id c [⟨"AA", "a"⟩] = some "AA" ∧
      ([⟨"c", OPACITY⟩] : List Style)
        = (([⟨"a", 1, some 3⟩] : List MRow).filter
            (fun r => r.country == c)).map
          (fun r => styleOf (fun _ => "c") none (transformCell false id r.value)))
    ∧ styleOf (fun _ => "c") none (some (3 : ℚ)) = ⟨"c", OPACITY⟩ :=
  ⟨(C7_create_style_three_cases [⟨"a", 1, some 3⟩] [⟨"AA", "a"⟩] ["a"]
      (fun _ => "c") id false none).1 ("AA", [⟨"c", OPACITY⟩]) (by decide),
   (C7_create_style_three_cases [⟨"a", 1, some 3⟩] [⟨"AA", "a"⟩] ["a"]
      (fun _ => "c") id false none).2.2.2.2 rfl 3⟩

/-- C9: `create_style` is total on malformed input: an empty country list
yields the empty style dictionary, and a listed country with no data rows, or
with no case-insensitively matching feature, is skipped and contributes no
entry, leaving the styles of the remaining countries untouched. -/
theorem C9_create_style_skips (data : List MRow) (geojson : List Feature)
    (cm : ℚ → String) (lg : ℚ → ℚ) (log : Bool) (th : Option ℚ) :
    (create_style data geojson [] cm lg log th = [])
    ∧ (∀ (l1 : List String) (c : String) (l2 : List String),
        (data.filter (fun r => r.country == c) = []
          ∨ get_country_id c geojson = none) →
        create_style data geojson (l1 ++ c :: l2) cm lg log th
          = create_style data geojson (l1 ++ l2) cm lg log th) := by
  constructor
  · rfl
  · intro l1 c l2 hskip
    unfold create_style
    rw [List.foldl_append, List.foldl_append, List.foldl_cons]
    congr 1
    rcases hskip with h | h
    · rw [if_pos (by rw [h]; rfl)]
    · by_cases hemp : (data.filter (fun r => r.country == c)).isEmpty
      · rw [if_pos hemp]
      · rw [if_neg hemp, h]

/-- Witness for C9: the country "zz" has no matching feature and is skipped;
prepending it to the country list leaves the style dictionary unchanged. -/
theorem C9_witness :
    create_style [⟨"a", 1, some 3⟩] [⟨"AA", "a"⟩] (["zz", "a"])
        (fun _ => "c") id false none
      = create_style [⟨"a", 1, some 3⟩] [⟨"AA", "a"⟩] ["a"]
        (fun _ => "c") id false none :=
  (C9_create_style_skips [⟨"a", 1, some 3⟩] [⟨"AA", "a"⟩]
    (fun _ => "c") id false none).2 [] "zz" ["a"] (Or.inr (by decide))

/-! Lemmas about the keyed style dictionaries. -/

lemma create_style_dlookup (data : List MRow) (geojson : List Feature)
    (cm : ℚ → String) (lg : ℚ → ℚ) (log : Bool) (th : Option ℚ)
    {c f : String} (countries : List String)
    (hinj : ∀ c' ∈ countries, get_country_id c' geojson = some f → c' = c)
    (hc : c ∈ countries)
    (hne : ¬((data.filter (fun r => r.country == c)).isEmpty = true))
    (hf : get_country_id c geojson = some f) :
    dlookup f (create_style data geojson countries cm lg log th)
      = some ((transformValues log lg
          ((data.filter (fun r => r.country == c)).map (·.value))).map
            (styleOf cm th)) := by
  have key : ∀ (cs : List String) (acc : List (String × List Style)),
      (∀ c' ∈ cs, get_country_id c' geojson = some f → c' = c) →
      (c ∈ cs ∨ dlookup f acc
        = some ((transformValues log lg
            ((data.filter (fun r => r.country == c)).map (·.value))).map
              (styleOf cm th))) →
      dlookup f (cs.foldl
          (fun style_dict country =>
            let datai := data.filter (fun r => r.country == country)
            if datai.isEmpty then style_dict
            else
              let values := transformValues log lg (datai.map (·.value))
              match get_country_id country geojson with
              | none => style_dict
              | some country_idx =>
                dinsert style_dict country_idx (values.map (styleOf cm th)))
          acc)
        = some ((transformValues log lg
            ((data.filter (fun r => r.country == c)).map (·.value))).map
              (styleOf cm th)) := by
    intro cs
    induction cs with
    | nil =>
      rintro acc _ (hmem | hacc)
      · cases hmem
      · exact hacc
    | cons c' cs ih =>
      rintro acc hinj' hdisj
      rw [List.foldl_cons]
      by_cases hemp' : (data.filter (fun r => r.country == c')).isEmpty
      · rw [if_pos hemp']
        apply ih acc (fun c2 h2 => hinj' c2 (List.mem_cons_of_mem _ h2))
        rcases hdisj with hmem | hacc
        · rcases List.mem_cons.mp hmem with rfl | hmem2
          · exact absurd hemp' hne
          · exact Or.inl hmem2
        · exact Or.inr hacc
      · rw [if_neg hemp']
        rcases hg : get_country_id c' geojson with _ | f'
        · apply ih acc (fun c2 h2 => hinj' c2 (List.mem_cons_of_mem _ h2))
          rcases hdisj with hmem | hacc
          · rcases List.mem_cons.mp hmem with rfl | hmem2
            · rw [hf] at hg
              cases hg
            · exact Or.inl hmem2
          · exact Or.inr hacc
        · by_cases hff : f' = f
          · subst hff
            have hcc : c' = c := hinj' c' (List.mem_cons_self _ _) hg
            subst hcc
            apply ih _ (fun c2 h2 => hinj' c2 (List.mem_cons_of_mem _ h2))
            exact Or.inr (dlookup_dinsert_self _ _ _)
          · apply ih _ (fun c2 h2 => hinj' c2 (List.mem_cons_of_mem _ h2))
            rcases hdisj with hmem | hacc
            · rcases List.mem_cons.mp hmem with rfl | hmem2
              · rw [hf] at hg
                exact absurd (Option.some_inj.mp hg).symm hff
              · exact Or.inl hmem2
            · exact Or.inr ((dlookup_dinsert_ne acc _ hff).trans hacc)
  exact key countries [] hinj (Or.inl hc)

lemma foldl_dinsert_reshape {β : Type} (G : List Style → β) (f : String)
    (val : List Style) :
    ∀ (styles : List (String × List Style)) (acc : List (String × β)),
    (∀ kv ∈ styles, kv.1 = f → kv.2 = val) →
    ((∃ kv ∈ styles, kv.1 = f) ∨ dlookup f acc = some (G val)) →
    dlookup f (styles.foldl (fun sd kv => dinsert sd kv.1 (G kv.2)) acc)
      = some (G val) := by
  intro styles
  induction styles with
  | nil =>
    rintro acc _ (⟨kv, hkv, _⟩ | h)
    · cases hkv
    · exact h
  | cons kv0 rest ih =>
    intro acc hval hdisj
    rw [List.foldl_cons]
    by_cases hk : kv0.1 = f
    · have hv : kv0.2 = val := hval kv0 (List.mem_cons_self _ _) hk
      apply ih _ (fun kv hkv h => hval kv (List.mem_cons_of_mem _ hkv) h)
      refine Or.inr ?_
      rw [hk, hv]
      exact dlookup_dinsert_self _ _ _
    · apply ih _ (fun kv hkv h => hval kv (List.mem_cons_of_mem _ hkv) h)
      rcases hdisj with ⟨kv, hkv, hkvf⟩ | hacc
      · rcases List.mem_cons.mp hkv with rfl | hkv2
        · exact absurd hkvf hk
        · exact Or.inl ⟨kv, hkv2, hkvf⟩
      · exact Or.inr ((dlookup_dinsert_ne acc _ hk).trans hacc)

lemma choro_reshape_dlookup (dates : List String) (f : String)
    (val : List Style) (styles : List (String × List Style))
    (acc : List (String × List (String × Style)))
    (hval : ∀ kv ∈ styles, kv.1 = f → kv.2 = val)
    (hdisj : (∃ kv ∈ styles, kv.1 = f)
      ∨ dlookup f acc = some ((dates.zip val).foldl
          (fun inner dv => dinsert inner dv.1 dv.2) [])) :
    dlookup f (styles.foldl
        (fun sd kv => dinsert sd kv.1
          ((dates.zip kv.2).foldl (fun inner dv => dinsert inner dv.1 dv.2) []))
        acc)
      = some ((dates.zip val).foldl
          (fun inner dv => dinsert inner dv.1 dv.2) []) :=
  foldl_dinsert_reshape
    (fun v => (dates.zip v).foldl (fun inner dv => dinsert inner dv.1 dv.2) [])
    f val styles acc hval hdisj

lemma head_reshape_dlookup (f : String) (val : List Style)
    (styles : List (String × List Style)) (acc : List (String × Style))
    (hval : ∀ kv ∈ styles, kv.1 = f → kv.2 = val)
    (hdisj : (∃ kv ∈ styles, kv.1 = f)
      ∨ dlookup f acc = some (val.headD default)) :
    dlookup f (styles.foldl
        (fun sd kv => dinsert sd kv.1 (kv.2.headD default)) acc)
      = some (val.headD default) :=
  foldl_dinsert_reshape (fun v => v.headD default) f val styles acc hval hdisj

lemma foldl_dinsert_pres {β : Type} (k : String) :
    ∀ (pairs : List (String × β)) (acc : List (String × β)),
    (∀ kv ∈ pairs, kv.1 ≠ k) →
    dlookup k (pairs.foldl (fun d kv => dinsert d kv.1 kv.2) acc)
      = dlookup k acc
  | [], _, _ => rfl
  | kv0 :: pairs, acc, hnk => by
    rw [List.foldl_cons,
      foldl_dinsert_pres k pairs _
        (fun kv hkv => hnk kv (List.mem_cons_of_mem _ hkv)),
      dlookup_dinsert_ne acc _ (hnk kv0 (List.mem_cons_self _ _))]

lemma zip_foldl_dlookup {β : Type} [Inhabited β] :
    ∀ (ks : List String) (vs : List β) (i : Nat)
      (acc : List (String × β)),
    ks.Nodup → i < ks.length → i < vs.length →
    dlookup (ks.getD i default)
        ((ks.zip vs).foldl (fun d kv => dinsert d kv.1 kv.2) acc)
      = some (vs.getD i default) := by
  intro ks
  induction ks with
  | nil =>
    intro vs i acc _ hi _
    simp at hi
  | cons k ks ih =>
    intro vs i acc hnd hi hv
    cases vs with
    | nil => simp at hv
    | cons v vs =>
      rw [List.zip_cons_cons, List.foldl_cons]
      cases i with
      | zero =>
        have hpres := foldl_dinsert_pres (β := β) k (ks.zip vs)
          (dinsert acc k v)
          (fun kv hkv => by
            intro hkk
            have := (List.of_mem_zip hkv).1
            rw [hkk] at this
            exact (List.nodup_cons.mp hnd).1 this)
        show dlookup k _ = some v
        rw [hpres, dlookup_dinsert_self]
      | succ i =>
        show dlookup (ks.getD i default) _ = some (vs.getD i default)
        exact ih vs i (dinsert acc k v) (List.nodup_cons.mp hnd).2
          (Nat.lt_of_succ_lt_succ hi) (Nat.lt_of_succ_lt_succ hv)

lemma headD_eq_getD {α : Type} [Inhabited α] (l : List α) :
    l.headD default = l.getD 0 default := by
  cases l <;> rfl

/-- C8: for a completed series (every country carries the global
first-occurrence date sequence, which completed country-sorted frames do),
with day-granularity dates (the epoch-second keys of distinct dates are
distinct) and distinct feature ids for distinct countries, the animated style
dictionary is keyed first by feature id and then by the `timeKey` string of
each date — the epoch-second count of the nanosecond timestamp printed as a
string — and the entry at (feature f, time key of date d) is the style of the
value of the country of f on date d; the static dictionary of
`create_folium_map` retains exactly the first time-ordered style per
feature. -/
theorem C8_style_dict_keys (data : List MRow) (geojson : List Feature)
    (cm : ℚ → String) (lg : ℚ → ℚ) (log : Bool) (th : Option ℚ)
    (hc : ∀ c ∈ uniqueSorted (data.map (·.country)),
      (data.filter (fun r => r.country == c)).map (·.date)
        = uniqueKeepFirst (data.map (·.date)))
    (hkey : ∀ d1 ∈ uniqueKeepFirst (data.map (·.date)),
      ∀ d2 ∈ uniqueKeepFirst (data.map (·.date)),
      timeKey d1 = timeKey d2 → d1 = d2)
    (hfeat : ∀ c1 ∈ uniqueSorted (data.map (·.country)),
      ∀ c2 ∈ uniqueSorted (data.map (·.country)), ∀ f : String,
      get_country_id c1 geojson = some f →
      get_country_id c2 geojson = some f → c1 = c2) :
    ∀ c ∈ uniqueSorted (data.map (·.country)), ∀ f : String,
      get_country_id c geojson = some f →
      (∀ i : Nat, i < (uniqueKeepFirst (data.map (·.date))).length →
        (dlookup f
            (create_folium_choropleth_styledict data geojson cm lg log th)).bind
            (fun inner => dlookup
              (timeKey ((uniqueKeepFirst (data.map (·.date))).getD i default))
              inner)
          = some (styleOf cm th (transformCell log lg
              (((data.filter (fun r => r.country == c)).getD i default).value))))
      ∧ (dlookup f (create_folium_map_styledict data geojson cm lg log th)
          = some (styleOf cm th (transformCell log lg
              (((data.filter (fun r => r.country == c)).getD 0 default).value)))) := by
  intro c hcmem f hf
  have hne' : data.filter (fun r => r.country == c) ≠ [] := by
    rcases List.mem_map.mp (mem_uniqueSorted.mp hcmem) with ⟨r, hr, rfl⟩
    exact List.ne_nil_of_mem
      (List.mem_filter.mpr ⟨hr, by simp⟩)
  have hneB : ¬((data.filter (fun r => r.country == c)).isEmpty = true) := by
    rw [List.isEmpty_iff]
    exact hne'
  have hlook := create_style_dlookup data geojson cm lg log th
    (uniqueSorted (data.map (·.country)))
    (fun c' hc' hg => hfeat c' hc' c hcmem f hg hf) hcmem hneB hf
  have hval : ∀ kv ∈ create_style data geojson
      (uniqueSorted (data.map (·.country))) cm lg log th,
      kv.1 = f → kv.2 = (transformValues log lg
        ((data.filter (fun r => r.country == c)).map (·.value))).map
          (styleOf cm th) := by
    intro kv hkv hkf
    rcases mem_create_style hkv with ⟨c2, hc2, hid2, _, hval2⟩
    have hcc : c2 = c := hfeat c2 hc2 c hcmem f (hkf ▸ hid2) hf
    rw [hval2, hcc]
  have hmem := dlookup_mem hlook
  have hdates := hc c hcmem
  have hlenf : (data.filter (fun r => r.country == c)).length
      = (uniqueKeepFirst (data.map (·.date))).length := by
    rw [← hdates, List.length_map]
  have hlenT : ((transformValues log lg
      ((data.filter (fun r => r.country == c)).map (·.value))).map
        (styleOf cm th)).length
      = (uniqueKeepFirst (data.map (·.date))).length := by
    rw [List.length_map, transformValues_length, List.length_map, hlenf]
  have hkn : ((uniqueKeepFirst (data.map (·.date))).map timeKey).Nodup :=
    (nodup_uniqueKeepFirst _).map_on
      (fun d1 h1 d2 h2 he => hkey d1 h1 d2 h2 he)
  have hTgetD : ∀ i : Nat,
      i < (uniqueKeepFirst (data.map (·.date))).length →
      ((transformValues log lg
        ((data.filter (fun r => r.country == c)).map (·.value))).map
          (styleOf cm th)).getD i default
        = styleOf cm th (transformCell log lg
            (((data.filter (fun r => r.country == c)).getD i default).value)) := by
    intro i hi
    rw [styleList_eq]
    exact getD_map_of_lt _ _ i (by rw [hlenf]; exact hi)
  constructor
  · intro i hi
    have houter : dlookup f
        (create_folium_choropleth_styledict data geojson cm lg log th)
        = some ((((uniqueKeepFirst (data.map (·.date))).map timeKey).zip
            ((transformValues log lg
              ((data.filter (fun r => r.country == c)).map (·.value))).map
                (styleOf cm th))).foldl
            (fun inner dv => dinsert inner dv.1 dv.2) []) := by
      show dlookup f
          ((create_style data geojson (uniqueSorted (data.map (·.country)))
              cm lg log th).foldl
            (fun sd kv => dinsert sd kv.1
              ((((uniqueKeepFirst (data.map (·.date))).map timeKey).zip
                  kv.2).foldl
                (fun inner dv => dinsert inner dv.1 dv.2) []))
            []) = _
      exact choro_reshape_dlookup _ f _ _ [] hval (Or.inl ⟨_, hmem, rfl⟩)
    rw [houter]
    show dlookup (timeKey ((uniqueKeepFirst (data.map (·.date))).getD i default)) _
      = _
    have hinner := zip_foldl_dlookup
      ((uniqueKeepFirst (data.map (·.date))).map timeKey)
      ((transformValues log lg
        ((data.filter (fun r => r.country == c)).map (·.value))).map
          (styleOf cm th))
      i [] hkn (by rw [List.length_map]; exact hi) (by rw [hlenT]; exact hi)
    rw [getD_map_of_lt _ timeKey i hi] at hinner
    rw [hinner, hTgetD i hi]
  · have hlen0 : 0 < (uniqueKeepFirst (data.map (·.date))).length := by
      rw [← hlenf]
      exact List.length_pos.mpr hne'
    have houter2 : dlookup f
        (create_folium_map_styledict data geojson cm lg log th)
        = some (((transformValues log lg
            ((data.filter (fun r => r.country == c)).map (·.value))).map
              (styleOf cm th)).headD default) :=
      head_reshape_dlookup f _ _ [] hval (Or.inl ⟨_, hmem, rfl⟩)
    rw [houter2, headD_eq_getD, hTgetD 0 hlen0]

/-- Witness for C8 on a completed two-country, two-day frame: the animated
dictionary stores, under feature "AA" and the time key of the first date, the
style of the first value of country "a". -/
theorem C8_witness :
    (dlookup "AA" (create_folium_choropleth_styledict
        [⟨"a", 1000000000, some 1⟩, ⟨"a", 2000000000, some 2⟩,
         ⟨"b", 1000000000, some 3⟩, ⟨"b", 2000000000, none⟩]
        [⟨"AA", "a"⟩, ⟨"BB", "b"⟩] (fun _ => "c") id false none)).bind
      (fun inner => dlookup
        (timeKey ((uniqueKeepFirst
          (([⟨"a", 1000000000, some 1⟩, ⟨"a", 2000000000, some 2⟩,
             ⟨"b", 1000000000, some 3⟩, ⟨"b", 2000000000, none⟩] :
              List MRow).map (·.date))).getD 0 default))
        inner)
      = some (styleOf (fun _ => "c") none (transformCell false id
          (((([⟨"a", 1000000000, some 1⟩, ⟨"a", 2000000000, some 2⟩,
              ⟨"b", 1000000000, some 3⟩, ⟨"b", 2000000000, none⟩] :
                List MRow).filter
              (fun r => r.country == "a")).getD 0 default).value))) :=
  ((C8_style_dict_keys
      [⟨"a", 1000000000, some 1⟩, ⟨"a", 2000000000, some 2⟩,
       ⟨"b", 1000000000, some 3⟩, ⟨"b", 2000000000, none⟩]
      [⟨"AA", "a"⟩, ⟨"BB", "b"⟩] (fun _ => "c") id false none
      (by decide) (by decide) (by decide)
      "a" (by decide) "AA" (by decide)).1 0 (by decide))

end Coronamap
